import Mathlib

/-!
Verification development for the otis telemetry aggregation system
(Go sources under aggregator/: processor.go, engine.go, models.go, store.go).

The Go code is shallowly embedded:

* `float64` values are modelled as exact rationals represented by an
  explicit numerator/denominator pair `Q` (kept executable so that concrete
  runs reduce inside the kernel); `Q.val` interprets them in `ℚ`.
* `time.Time` values are modelled by their `UnixNano` instant as `Int`.
* Go maps are modelled by association lists with insert-overwrite
  semantics (`alInsert`) and first-hit lookup (`alGet`); since every write
  goes through `alInsert`/`alUpd`, a key occurs at most once and first-hit
  lookup agrees with Go map lookup.
* `interface{}` values produced by `encoding/json` are modelled by the
  inductive `JVal` (JSON numbers become `Q`, objects become association
  lists).
* the legacy `SessionStats.ModelsUsed` / `ToolsUsed` fields, which the
  source stores as JSON-encoded strings, are modelled by their decoded
  content (a list of names, resp. a name → count map).
-/

set_option maxRecDepth 8192

/-- Exact rational numbers as an explicit (numerator, denominator) pair.
All values produced by the embedded code keep a positive denominator;
comparisons below are stated for that case. -/
structure Q where
  num : Int
  den : Int
deriving DecidableEq, Repr

/-- Embed an integer as a `Q`. -/
def Q.ofInt (n : Int) : Q := ⟨n, 1⟩

/-- Zero as a `Q`. -/
def Q.zero : Q := ⟨0, 1⟩

/-- Addition on `Q` (cross multiplication, no normalisation). -/
def Q.add (a b : Q) : Q := ⟨a.num * b.den + b.num * a.den, a.den * b.den⟩

/-- Division on `Q`; the sign is moved into the numerator so that a
division by a value with positive numerator keeps the denominator
positive. -/
def Q.div (a b : Q) : Q :=
  if b.num < 0 then ⟨-(a.num * b.den), a.den * -b.num⟩ else ⟨a.num * b.den, a.den * b.num⟩

/-- Comparison `a ≤ b` on `Q`, valid for positive denominators. -/
def Q.le (a b : Q) : Prop := a.num * b.den ≤ b.num * a.den

/-- Comparison `a < b` on `Q`, valid for positive denominators. -/
def Q.lt (a b : Q) : Prop := a.num * b.den < b.num * a.den

instance (a b : Q) : Decidable (Q.le a b) := by unfold Q.le; infer_instance

instance (a b : Q) : Decidable (Q.lt a b) := by unfold Q.lt; infer_instance

/-- Positivity of the denominator: the invariant under which `Q.le` and
`Q.lt` mean what they say. -/
def Q.posden (a : Q) : Prop := 0 < a.den

instance (a : Q) : Decidable (Q.posden a) := by unfold Q.posden; infer_instance

/-- Interpretation of a `Q` in the rationals. -/
def Q.val (a : Q) : ℚ := (a.num : ℚ) / (a.den : ℚ)

/-- Association-list lookup (first hit).  Thanks to the insert-overwrite
write path a key occurs at most once, so this agrees with Go map reads. -/
def alGet {α : Type} (l : List (String × α)) (k : String) : Option α :=
  match l with
  | [] => none
  | (k', v) :: rest => if k' = k then some v else alGet rest k

/-- Association-list lookup with a default, models Go's `m[k]` read of a
missing key returning the zero value. -/
def alGetD {α : Type} (l : List (String × α)) (k : String) (d : α) : α :=
  (alGet l k).getD d

/-- Association-list insert with overwrite, models a Go map write
`m[k] = v`. -/
def alInsert {α : Type} (l : List (String × α)) (k : String) (v : α) : List (String × α) :=
  match l with
  | [] => [(k, v)]
  | (k', v') :: rest => if k' = k then (k, v) :: rest else (k', v') :: alInsert rest k v

/-- Get-or-create-then-mutate on an association list: models the Go
pattern of creating a fresh entry when the key is absent and then
mutating the entry through a pointer. -/
def alUpd {α : Type} (l : List (String × α)) (k : String) (fresh : α) (f : α → α) :
    List (String × α) :=
  match l with
  | [] => [(k, f fresh)]
  | (k', v') :: rest => if k' = k then (k, f v') :: rest else (k', v') :: alUpd rest k fresh f

/-- Characters that `strings.TrimSpace` (for the ASCII range relevant to
the record files) and `fmt.Sscanf` treat as white space. -/
def isSpaceChar (c : Char) : Bool :=
  c = ' ' ∨ c = '\t' ∨ c = '\n' ∨ c = '\r'

/-- Drop leading white space from a character list. -/
def skipWsChars : List Char → List Char
  | [] => []
  | c :: cs => if isSpaceChar c then skipWsChars cs else c :: cs

/-- Decimal digit test. -/
def isDigitChar (c : Char) : Bool := '0' ≤ c ∧ c ≤ '9'

/-- Numeric value of a decimal digit character. -/
def digitVal (c : Char) : Nat := c.toNat - '0'.toNat

/-- Split a character list into its longest prefix of decimal digits and
the rest. -/
def takeDigits : List Char → List Char × List Char
  | [] => ([], [])
  | c :: cs =>
    if isDigitChar c then
      let (ds, rest) := takeDigits cs
      (c :: ds, rest)
    else ([], c :: cs)

/-- Value of a digit string read most significant first. -/
def digitsToNat (acc : Nat) : List Char → Nat
  | [] => acc
  | c :: cs => digitsToNat (acc * 10 + digitVal c) cs

/-- Model of `fmt.Sscanf(s, "%d", &v)`: skip white space, read an
optional sign and a digit run; when no digit is present the scan fails
and the variable keeps its zero value. -/
def scanInt (s : String) : Int :=
  let cs := skipWsChars s.toList
  let (neg, cs) : Bool × List Char :=
    match cs with
    | '-' :: rest => (true, rest)
    | '+' :: rest => (false, rest)
    | _ => (false, cs)
  let (ds, _) := takeDigits cs
  if ds.isEmpty then 0
  else if neg then -(digitsToNat 0 ds : Int) else (digitsToNat 0 ds : Int)

/-- Mantissa/fraction/exponent reading shared by `scanFloat` and the JSON
parser: `sign? digits ('.' digits)? ([eE] sign? digits)?`, requiring at
least one digit in the integer-plus-fraction part.  Returns the value and
the unread rest. -/
def readNumber (cs : List Char) : Option (Q × List Char) :=
  let (neg, cs) : Bool × List Char :=
    match cs with
    | '-' :: rest => (true, rest)
    | '+' :: rest => (false, rest)
    | _ => (false, cs)
  let (intDs, cs) := takeDigits cs
  let (fracDs, cs) : List Char × List Char :=
    match cs with
    | '.' :: rest => takeDigits rest
    | _ => ([], cs)
  if intDs.isEmpty ∧ fracDs.isEmpty then none
  else
    let (expo, cs) : Int × List Char :=
      match cs with
      | 'e' :: rest => readExpo rest
      | 'E' :: rest => readExpo rest
      | _ => (0, cs)
    let mant : Int := (digitsToNat (digitsToNat 0 intDs) fracDs : Int)
    let mant : Int := if neg then -mant else mant
    let scale : Int := (fracDs.length : Int) - expo
    let q : Q :=
      if 0 ≤ scale then ⟨mant, (10 ^ scale.toNat : Nat)⟩
      else ⟨mant * (10 ^ (-scale).toNat : Nat), 1⟩
    some (q, cs)
where
  /-- Read the signed exponent after an `e`/`E`. -/
  readExpo (cs : List Char) : Int × List Char :=
    let (eneg, cs) : Bool × List Char :=
      match cs with
      | '-' :: rest => (true, rest)
      | '+' :: rest => (false, rest)
      | _ => (false, cs)
    let (eds, rest) := takeDigits cs
    if eds.isEmpty then (0, cs)
    else if eneg then (-(digitsToNat 0 eds : Int), rest) else ((digitsToNat 0 eds : Int), rest)

/-- Model of `fmt.Sscanf(s, "%f", &v)`: skip white space and read a
decimal number; on failure the variable keeps its zero value. -/
def scanFloat (s : String) : Q :=
  match readNumber (skipWsChars s.toList) with
  | some (q, _) => q
  | none => Q.zero

/-- JSON values as decoded by `encoding/json` into `interface{}`:
numbers (Go `float64`) are modelled as exact rationals, objects as
association lists (Go `map[string]interface{}`). -/
inductive JVal where
  | null : JVal
  | boolean : Bool → JVal
  | num : Q → JVal
  | str : String → JVal
  | arr : List JVal → JVal
  | obj : List (String × JVal) → JVal

/-- Truncation of a `Q` toward zero, models Go's `int64(f)` conversion of
a `float64`. -/
def Q.toIntTrunc (a : Q) : Int :=
  if a.den < 0 then (-a.num).tdiv (-a.den) else a.num.tdiv a.den

/-- Model of engine.go `containsString`: both strings non-empty and the
needle a substring (the source delegates to `hasSubstring`, a sliding
window scan; `List.isInfix` captures it). -/
def containsString (s substr : String) : Bool :=
  decide (s.length > 0) && decide (substr.length > 0) &&
    (decide (s = substr) ||
      (decide (s.length > substr.length) && decide (substr.toList <:+: s.toList)))

/-- Model of engine.go `extractString`: a raw string or the `stringValue`
field of a tagged value object; anything else yields `""`. -/
def extractString (attrs : List (String × JVal)) (key : String) : String :=
  match alGet attrs key with
  | some (JVal.str v) => v
  | some (JVal.obj m) =>
    match alGet m "stringValue" with
    | some (JVal.str v) => v
    | _ => ""
  | _ => ""

/-- Model of engine.go `extractInt`: a raw number is truncated, a raw
string is scanned with `%d`, and a tagged value object is accepted only
through a numeric `intValue` field or a string `stringValue` field;
anything else (in particular `intValue` holding a string) yields 0. -/
def extractInt (attrs : List (String × JVal)) (key : String) : Int :=
  match alGet attrs key with
  | some (JVal.num v) => v.toIntTrunc
  | some (JVal.str v) => scanInt v
  | some (JVal.obj m) =>
    match alGet m "intValue" with
    | some (JVal.num v) => v.toIntTrunc
    | _ =>
      match alGet m "stringValue" with
      | some (JVal.str v) => scanInt v
      | _ => 0
  | _ => 0

/-- Model of engine.go `extractFloat`: a raw number, a `%f`-scanned raw
string, or a tagged value object through `doubleValue`, numeric
`intValue`, or string `stringValue`. -/
def extractFloat (attrs : List (String × JVal)) (key : String) : Q :=
  match alGet attrs key with
  | some (JVal.num v) => v
  | some (JVal.str v) => scanFloat v
  | some (JVal.obj m) =>
    match alGet m "doubleValue" with
    | some (JVal.num v) => v
    | _ =>
      match alGet m "intValue" with
      | some (JVal.num v) => v
      | _ =>
        match alGet m "stringValue" with
        | some (JVal.str v) => scanFloat v
        | _ => Q.zero
  | _ => Q.zero

/-- Model of engine.go `extractBool`: a raw boolean, the strings
`"true"`/`"1"`, or a tagged value object through `boolValue` or a string
`stringValue`. -/
def extractBool (attrs : List (String × JVal)) (key : String) : Bool :=
  match alGet attrs key with
  | some (JVal.boolean v) => v
  | some (JVal.str v) => v = "true" ∨ v = "1"
  | some (JVal.obj m) =>
    match alGet m "boolValue" with
    | some (JVal.boolean v) => v
    | _ =>
      match alGet m "stringValue" with
      | some (JVal.str v) => v = "true" ∨ v = "1"
      | _ => false
  | _ => false

example : extractInt [("k", JVal.obj [("intValue", JVal.num ⟨1500, 1⟩)])] "k" = 1500 := by decide
example : extractInt [("k", JVal.obj [("intValue", JVal.str "1500")])] "k" = 0 := by decide
example : extractInt [("k", JVal.num ⟨1500, 1⟩)] "k" = 1500 := by decide
example : extractInt [("k", JVal.str "1500")] "k" = 1500 := by decide
example : scanFloat "45.2" = ⟨452, 10⟩ := by decide
example : containsString "claude_code.tool_result" "claude_code.tool_result" = true := by decide
example : containsString "claude_code.tool_result" "claude_code.api_request" = false := by decide

/-- Value of a metric data point: Go stores it in an `interface{}` as
`int64` (from `asInt`), `float64` (from `asDouble`), or leaves it nil. -/
inductive MetricValue where
  | intV : Int → MetricValue
  | doubleV : Q → MetricValue
  | noneV : MetricValue
deriving DecidableEq, Repr

/-- models.go `MetricRecord` (timestamps as UnixNano instants). -/
structure MetricRecord where
  timestamp : Int
  sessionID : String
  userID : String
  organizationID : String
  serviceName : String
  metricName : String
  metricValue : MetricValue
  attributes : List (String × String)

/-- models.go `LogRecord`; `attributes` keeps the whole tagged value
objects, as the source does. -/
structure LogRecord where
  timestamp : Int
  sessionID : String
  userID : String
  organizationID : String
  serviceName : String
  severityText : String
  body : String
  attributes : List (String × JVal)

/-- models.go `TraceRecord`. -/
structure TraceRecord where
  timestamp : Int
  sessionID : String
  userID : String
  organizationID : String
  serviceName : String
  spanName : String
  durationMS : Q
  attributes : List (String × String)

/-- Shared attribute-array walk of processor.go (`extractResourceAttributes`
and the data-point loop of `extractMetricRecords`): keep only entries whose
tagged value carries a `stringValue`. -/
def attrStringPairs (attrs : List JVal) : List (String × String) :=
  attrs.foldl
    (fun acc a =>
      match a with
      | JVal.obj attrMap =>
        let key := match alGet attrMap "key" with | some (JVal.str k) => k | _ => ""
        match alGet attrMap "value" with
        | some (JVal.obj valueMap) =>
          match alGet valueMap "stringValue" with
          | some (JVal.str v) => alInsert acc key v
          | _ => acc
        | _ => acc
      | _ => acc)
    []

/-- Attribute-array walk of `extractLogRecord`: keep the whole tagged
value object for each key. -/
def attrTaggedPairs (attrs : List JVal) : List (String × JVal) :=
  attrs.foldl
    (fun acc a =>
      match a with
      | JVal.obj attrMap =>
        let key := match alGet attrMap "key" with | some (JVal.str k) => k | _ => ""
        match alGet attrMap "value" with
        | some (JVal.obj valueMap) => alInsert acc key (JVal.obj valueMap)
        | _ => acc
      | _ => acc)
    []

/-- Merge two string-attribute maps, later (second) values winning;
models the `allAttrs` copy-then-overwrite loops of processor.go. -/
def mergeStrAttrs (base : List (String × String)) (over : List (String × String)) :
    List (String × String) :=
  over.foldl (fun m kv => alInsert m kv.1 kv.2) base

/-- processor.go `extractResourceAttributes`. -/
def extractResourceAttributes (resourceMap : List (String × JVal)) : List (String × String) :=
  match alGet resourceMap "resource" with
  | some (JVal.obj resource) =>
    match alGet resource "attributes" with
    | some (JVal.arr attributes) => attrStringPairs attributes
    | _ => []
  | _ => []

/-- processor.go `extractMetricRecords`: one record per `sum` data point,
data-point attributes overriding resource attributes. -/
def extractMetricRecords (metricMap : List (String × JVal))
    (resourceAttrs : List (String × String)) : List MetricRecord :=
  let name := match alGet metricMap "name" with | some (JVal.str s) => s | _ => ""
  if name = "" then []
  else
    match alGet metricMap "sum" with
    | some (JVal.obj sum) =>
      match alGet sum "dataPoints" with
      | some (JVal.arr dataPoints) =>
        dataPoints.foldl
          (fun recs dpv =>
            match dpv with
            | JVal.obj dp =>
              let dataPointAttrs :=
                match alGet dp "attributes" with
                | some (JVal.arr attributes) => attrStringPairs attributes
                | _ => []
              let timestamp : Int :=
                match alGet dp "timeUnixNano" with
                | some (JVal.str timeStr) => scanInt timeStr
                | _ => 0
              let value : MetricValue :=
                match alGet dp "asInt" with
                | some (JVal.str asInt) => MetricValue.intV (scanInt asInt)
                | _ =>
                  match alGet dp "asDouble" with
                  | some (JVal.num d) => MetricValue.doubleV d
                  | _ => MetricValue.noneV
              let allAttrs := mergeStrAttrs resourceAttrs dataPointAttrs
              recs ++ [{ timestamp := timestamp
                         sessionID := alGetD allAttrs "session.id" ""
                         userID := alGetD allAttrs "user.id" ""
                         organizationID := alGetD allAttrs "organization.id" ""
                         serviceName := alGetD allAttrs "service.name" ""
                         metricName := name
                         metricValue := value
                         attributes := allAttrs }]
            | _ => recs)
          []
      | _ => []
    | _ => []

/-- String-valued projection of a tagged log-attribute map (entries whose
value object carries a `stringValue`). -/
def logAttrStrings (l : List (String × JVal)) : List (String × String) :=
  l.foldl
    (fun acc kv =>
      match kv.2 with
      | JVal.obj vm =>
        match alGet vm "stringValue" with
        | some (JVal.str s) => alInsert acc kv.1 s
        | _ => acc
      | _ => acc)
    []

/-- Tagged attribute map of a log record (its `attributes` array read
with `attrTaggedPairs`). -/
def logTagged (logMap : List (String × JVal)) : List (String × JVal) :=
  match alGet logMap "attributes" with
  | some (JVal.arr attributes) => attrTaggedPairs attributes
  | _ => []

/-- Modelled from the spec: the current `extractLogRecord` is not among the
retrieved sources (the retrieved processor.go is a stale revision that reads
identifiers from resource attributes only, and the repository's tests exercise
log-attribute extraction with resource fallback).  Per §4.B the identifiers
(session_id, user_id, organization_id, service_name) are merged with
resource-level attributes first and per-log-record attributes second, later
values winning; the full tagged attribute map is kept for the Engine. -/
def extractLogRecord (logMap : List (String × JVal))
    (resourceAttrs : List (String × String)) : LogRecord :=
  let timestamp : Int :=
    match alGet logMap "timeUnixNano" with
    | some (JVal.str s) => scanInt s
    | _ => 0
  let severityText := match alGet logMap "severityText" with | some (JVal.str s) => s | _ => ""
  let body :=
    match alGet logMap "body" with
    | some (JVal.obj bodyMap) =>
      match alGet bodyMap "stringValue" with
      | some (JVal.str s) => s
      | _ => ""
    | _ => ""
  let logAttrs : List (String × JVal) := logTagged logMap
  let merged := mergeStrAttrs resourceAttrs (logAttrStrings logAttrs)
  { timestamp := timestamp
    sessionID := alGetD merged "session.id" ""
    userID := alGetD merged "user.id" ""
    organizationID := alGetD merged "organization.id" ""
    serviceName := alGetD merged "service.name" ""
    severityText := severityText
    body := body
    attributes := logAttrs }

/-- processor.go `extractTraceRecord`. -/
def extractTraceRecord (spanMap : List (String × JVal))
    (resourceAttrs : List (String × String)) : Option TraceRecord :=
  let name := match alGet spanMap "name" with | some (JVal.str s) => s | _ => ""
  if name = "" then none
  else
    let timestamp : Int :=
      match alGet spanMap "startTimeUnixNano" with
      | some (JVal.str s) => scanInt s
      | _ => 0
    let durationMS : Q :=
      match alGet spanMap "endTimeUnixNano" with
      | some (JVal.str endTimeStr) =>
        match alGet spanMap "startTimeUnixNano" with
        | some (JVal.str startTimeStr) =>
          Q.div (Q.ofInt (scanInt endTimeStr - scanInt startTimeStr)) (Q.ofInt 1000000)
        | _ => Q.zero
      | _ => Q.zero
    some
      { timestamp := timestamp
        sessionID := alGetD resourceAttrs "session.id" ""
        userID := alGetD resourceAttrs "user.id" ""
        organizationID := alGetD resourceAttrs "organization.id" ""
        serviceName := alGetD resourceAttrs "service.name" ""
        spanName := name
        durationMS := durationMS
        attributes := resourceAttrs }

/-- Typed record fed to the Engine. -/
inductive Record where
  | metric : MetricRecord → Record
  | log : LogRecord → Record
  | trace : TraceRecord → Record

/-- Unescape a single-character JSON escape. -/
def unescapeChar (c : Char) : Option Char :=
  if c = '"' then some '"'
  else if c = '\\' then some '\\'
  else if c = '/' then some '/'
  else if c = 'b' then some (Char.ofNat 8)
  else if c = 'f' then some (Char.ofNat 12)
  else if c = 'n' then some '\n'
  else if c = 'r' then some '\r'
  else if c = 't' then some '\t'
  else none

/-- Hexadecimal digit value. -/
def hexVal (c : Char) : Option Nat :=
  if isDigitChar c then some (digitVal c)
  else if 'a' ≤ c ∧ c ≤ 'f' then some (c.toNat - 'a'.toNat + 10)
  else if 'A' ≤ c ∧ c ≤ 'F' then some (c.toNat - 'A'.toNat + 10)
  else none

/-- Read the body of a JSON string after the opening quote, handling the
escape sequences of `encoding/json` (surrogate pairs are not combined). -/
def parseStringBody (acc : List Char) : List Char → Option (String × List Char)
  | [] => none
  | '"' :: rest => some (String.mk acc.reverse, rest)
  | '\\' :: 'u' :: h1 :: h2 :: h3 :: h4 :: rest =>
    match hexVal h1, hexVal h2, hexVal h3, hexVal h4 with
    | some a, some b, some c, some d =>
      parseStringBody (Char.ofNat (((a * 16 + b) * 16 + c) * 16 + d) :: acc) rest
    | _, _, _, _ => none
  | '\\' :: e :: rest =>
    match unescapeChar e with
    | some c => parseStringBody (c :: acc) rest
    | none => none
  | c :: rest => parseStringBody (c :: acc) rest

mutual

/-- Recursive-descent JSON value parser (fuel-indexed to stay total);
models `encoding/json` unmarshalling into `interface{}`. -/
def parseVal : Nat → List Char → Option (JVal × List Char)
  | 0, _ => none
  | fuel + 1, cs =>
    match skipWsChars cs with
    | [] => none
    | '"' :: rest =>
      match parseStringBody [] rest with
      | some (s, r) => some (JVal.str s, r)
      | none => none
    | '\x7b' :: rest =>
      match skipWsChars rest with
      | '\x7d' :: r => some (JVal.obj [], r)
      | cs' => parseMembers fuel cs' []
    | '[' :: rest =>
      match skipWsChars rest with
      | ']' :: r => some (JVal.arr [], r)
      | cs' => parseElems fuel cs' []
    | 't' :: 'r' :: 'u' :: 'e' :: rest => some (JVal.boolean true, rest)
    | 'f' :: 'a' :: 'l' :: 's' :: 'e' :: rest => some (JVal.boolean false, rest)
    | 'n' :: 'u' :: 'l' :: 'l' :: rest => some (JVal.null, rest)
    | cs' =>
      match readNumber cs' with
      | some (q, r) => some (JVal.num q, r)
      | none => none
termination_by structural fuel => fuel

/-- Parse the members of a JSON object (position: at a key, past any
white space); duplicate keys overwrite, as a Go map decode does. -/
def parseMembers (fuel : Nat) (cs : List Char) (acc : List (String × JVal)) :
    Option (JVal × List Char) :=
  match fuel with
  | 0 => none
  | fuel + 1 =>
    match cs with
    | '"' :: rest =>
      match parseStringBody [] rest with
      | some (k, r1) =>
        match skipWsChars r1 with
        | ':' :: r2 =>
          match parseVal fuel r2 with
          | some (v, r3) =>
            let acc := alInsert acc k v
            match skipWsChars r3 with
            | ',' :: r4 => parseMembers fuel (skipWsChars r4) acc
            | '\x7d' :: r4 => some (JVal.obj acc, r4)
            | _ => none
          | none => none
        | _ => none
      | none => none
    | _ => none

/-- Parse the elements of a JSON array (position: at a value). -/
def parseElems (fuel : Nat) (cs : List Char) (acc : List JVal) :
    Option (JVal × List Char) :=
  match fuel with
  | 0 => none
  | fuel + 1 =>
    match parseVal fuel cs with
    | some (v, r1) =>
      let acc := acc ++ [v]
      match skipWsChars r1 with
      | ',' :: r2 => parseElems fuel r2 acc
      | ']' :: r2 => some (JVal.arr acc, r2)
      | _ => none
    | none => none

end

/-- Model of `json.Unmarshal` on a whole line: a single JSON value with
nothing but white space after it. -/
def parseJson (s : String) : Option JVal :=
  match parseVal (s.length + 1) s.toList with
  | some (j, rest) => if (skipWsChars rest).isEmpty then some j else none
  | none => none

/-- processor.go `processMetricData`: walk resourceMetrics → scopeMetrics
→ metrics and extract every data point. -/
def processMetricData (data : List (String × JVal)) : List Record :=
  match alGet data "resourceMetrics" with
  | some (JVal.arr rms) =>
    rms.foldl
      (fun acc rm =>
        match rm with
        | JVal.obj rmMap =>
          let attrs := extractResourceAttributes rmMap
          match alGet rmMap "scopeMetrics" with
          | some (JVal.arr sms) =>
            sms.foldl
              (fun acc2 sm =>
                match sm with
                | JVal.obj smMap =>
                  match alGet smMap "metrics" with
                  | some (JVal.arr ms) =>
                    ms.foldl
                      (fun acc3 m =>
                        match m with
                        | JVal.obj mMap =>
                          acc3 ++ (extractMetricRecords mMap attrs).map Record.metric
                        | _ => acc3)
                      acc2
                  | _ => acc2
                | _ => acc2)
              acc
          | _ => acc
        | _ => acc)
      []
  | _ => []

/-- processor.go `processLogData`: walk resourceLogs → scopeLogs →
logRecords. -/
def processLogData (data : List (String × JVal)) : List Record :=
  match alGet data "resourceLogs" with
  | some (JVal.arr rls) =>
    rls.foldl
      (fun acc rl =>
        match rl with
        | JVal.obj rlMap =>
          let attrs := extractResourceAttributes rlMap
          match alGet rlMap "scopeLogs" with
          | some (JVal.arr sls) =>
            sls.foldl
              (fun acc2 sl =>
                match sl with
                | JVal.obj slMap =>
                  match alGet slMap "logRecords" with
                  | some (JVal.arr lrs) =>
                    lrs.foldl
                      (fun acc3 lr =>
                        match lr with
                        | JVal.obj lrMap =>
                          acc3 ++ [Record.log (extractLogRecord lrMap attrs)]
                        | _ => acc3)
                      acc2
                  | _ => acc2
                | _ => acc2)
              acc
          | _ => acc
        | _ => acc)
      []
  | _ => []

/-- processor.go `processTraceData`: walk resourceSpans → scopeSpans →
spans. -/
def processTraceData (data : List (String × JVal)) : List Record :=
  match alGet data "resourceSpans" with
  | some (JVal.arr rss) =>
    rss.foldl
      (fun acc rs =>
        match rs with
        | JVal.obj rsMap =>
          let attrs := extractResourceAttributes rsMap
          match alGet rsMap "scopeSpans" with
          | some (JVal.arr sss) =>
            sss.foldl
              (fun acc2 ss =>
                match ss with
                | JVal.obj ssMap =>
                  match alGet ssMap "spans" with
                  | some (JVal.arr sps) =>
                    sps.foldl
                      (fun acc3 sp =>
                        match sp with
                        | JVal.obj spMap =>
                          match extractTraceRecord spMap attrs with
                          | some r => acc3 ++ [Record.trace r]
                          | none => acc3
                        | _ => acc3)
                      acc2
                  | _ => acc2
                | _ => acc2)
              acc
          | _ => acc
        | _ => acc)
      []
  | _ => []

/-- Dispatch a decoded envelope by file role, as the `switch filename`
of processor.go `processLine` does. -/
def routeData (filename : String) (data : List (String × JVal)) : Except String (List Record) :=
  if filename = "metrics.jsonl" then Except.ok (processMetricData data)
  else if filename = "logs.jsonl" then Except.ok (processLogData data)
  else if filename = "traces.jsonl" then Except.ok (processTraceData data)
  else Except.error "unknown file type"

/-- Modelled from the spec: the current `processLine` is not among the
retrieved sources (the retrieved processor.go is a stale revision that accepts
only the wrapped form, and the repository's backwards-compatibility test feeds
both forms).  Per §4.D the line is parsed as a JSON object; a wrapped form
whose `data` field holds a string has that string re-parsed as the envelope;
otherwise the object itself is the envelope; anything unparseable errors. -/
def processLine (filename line : String) : Except String (List Record) :=
  match parseJson line with
  | none => Except.error "failed to unmarshal line"
  | some (JVal.obj wrapper) =>
    match alGet wrapper "data" with
    | some (JVal.str dataStr) =>
      match parseJson dataStr with
      | some (JVal.obj data) => routeData filename data
      | _ => Except.error "failed to unmarshal data"
    | _ => routeData filename wrapper
  | some _ => Except.error "line is not a JSON object"

/-- models.go `ProcessingState` (time bookkeeping fields omitted; offsets
and sizes are non-negative throughout the source, so `Nat` is used). -/
structure ProcessingState where
  fileName : String
  lastByteOffset : Nat
  fileSizeBytes : Nat
  inode : Nat

/-- Byte length of one line in the file, including its newline byte. -/
def lineBytes (l : String) : Nat := l.utf8ByteSize + 1

/-- Byte length of a list of lines. -/
def byteLen (lines : List String) : Nat := (lines.map lineBytes).sum

/-- Whitespace-only test, models `strings.TrimSpace(line) == ""`. -/
def isBlankLine (l : String) : Bool := l.toList.all isSpaceChar

/-- Seek to a byte offset inside a list of lines and return the lines
from there on.  The source only ever seeks to offsets it previously
computed as whole-line sums, so an offset inside a line (which `bufio`
would answer with a partial line) is answered with that whole line. -/
def dropToOffset : List String → Nat → List String
  | ls, 0 => ls
  | [], _ => []
  | l :: ls, off => if lineBytes l ≤ off then dropToOffset ls (off - lineBytes l) else l :: ls

/-- Result of one `ProcessFile` pass: the state written back to the
store, and the non-blank lines handed to `processLine`, in order. -/
structure PassResult where
  finalState : ProcessingState
  processed : List String

/-- Modelled from the spec: the current `ProcessFile` is not among the
retrieved sources (the retrieved processor.go revision predates the inode
column that store.go, models.go, migration 006 and the rotation tests carry).
Per §4.D: reset the cursor when the inode changed (rotation) or the file
shrank below the cursor (truncation); return early when nothing is new; then
seek to the cursor and scan line by line, advancing the offset by
`len(line)+1` for every line, feeding non-blank lines out, and writing the
state back only when at least one line was processed (spec step 5).  The
every-100-lines checkpoint write only persists intermediate states and is not
modelled. -/
def ProcessFile (state : ProcessingState) (curInode : Nat) (fileLines : List String) :
    PassResult :=
  let curSize := byteLen fileLines
  let st :=
    if state.inode ≠ 0 ∧ curInode ≠ state.inode then
      { state with lastByteOffset := 0, fileSizeBytes := 0 }
    else if curSize < state.lastByteOffset then
      { state with lastByteOffset := 0, fileSizeBytes := 0 }
    else state
  if curSize ≤ st.fileSizeBytes ∧ st.lastByteOffset ≥ curSize then
    { finalState := state, processed := [] }
  else
    let newLines := dropToOffset fileLines st.lastByteOffset
    let processedLines := newLines.filter (fun l => ¬ isBlankLine l)
    let currentOffset := st.lastByteOffset + byteLen newLines
    if 0 < processedLines.length then
      { finalState :=
          { state with
            lastByteOffset := currentOffset
            fileSizeBytes := curSize
            inode := curInode }
        processed := processedLines }
    else
      { finalState := state, processed := [] }

/-- engine.go `SessionEnv`. -/
structure SessionEnv where
  clientName : String
  clientVersion : String
  terminalType : String
  hostArch : String
  osType : String
  osVersion : String

/-- models.go `Session` (new schema), including the environment and
count columns added by migration 007 that engine.go writes
(`created_at`/`updated_at` wall-clock bookkeeping is not modelled). -/
structure Session where
  sessionID : String
  organizationID : String
  userID : String
  startTime : Int
  endTime : Int
  totalCostUSD : Q
  totalInputTokens : Int
  totalOutputTokens : Int
  totalCacheReadTokens : Int
  totalCacheCreationTokens : Int
  toolCallCount : Nat
  apiRequestCount : Nat
  apiErrorCount : Nat
  userPromptCount : Nat
  totalAPILatencyMS : Q
  clientName : String
  clientVersion : String
  terminalType : String
  hostArch : String
  osType : String
  osVersion : String

/-- models.go `SessionStats` (legacy schema); the JSON-encoded
`ModelsUsed`/`ToolsUsed` strings are modelled by their decoded content. -/
structure SessionStats where
  sessionID : String
  userID : String
  organizationID : String
  serviceName : String
  startTime : Int
  lastUpdateTime : Int
  terminalType : String
  hostArch : String
  osType : String
  totalCostUSD : Q
  totalInputTokens : Int
  totalOutputTokens : Int
  totalCacheReadTokens : Int
  totalCacheCreationTokens : Int
  totalActiveTimeSeconds : Q
  apiRequestCount : Nat
  userPromptCount : Nat
  toolExecutionCount : Nat
  toolSuccessCount : Nat
  toolFailureCount : Nat
  avgAPILatencyMS : Q
  totalAPILatencyMS : Q
  modelsUsed : List String
  toolsUsed : List (String × Nat)

/-- models.go `SessionModel` (new schema). -/
structure SessionModel where
  sessionID : String
  model : String
  costUSD : Q
  inputTokens : Int
  outputTokens : Int
  cacheReadTokens : Int
  cacheCreationTokens : Int
  requestCount : Nat
  totalLatencyMS : Q

/-- models.go `SessionModelStats` (legacy schema). -/
structure SessionModelStats where
  sessionID : String
  model : String
  costUSD : Q
  inputTokens : Int
  outputTokens : Int
  cacheReadTokens : Int
  cacheCreationTokens : Int
  requestCount : Nat
  totalLatencyMS : Q
  avgLatencyMS : Q

/-- models.go `SessionTool` (new schema). -/
structure SessionTool where
  sessionID : String
  toolName : String
  callCount : Nat
  successCount : Nat
  failureCount : Nat
  totalExecutionTimeMS : Q
  autoApprovedCount : Nat
  userApprovedCount : Nat
  rejectedCount : Nat
  totalResultSizeBytes : Int

/-- models.go `SessionToolStats` (legacy schema, carries the running
min/avg/max durations). -/
structure SessionToolStats where
  sessionID : String
  toolName : String
  executionCount : Nat
  successCount : Nat
  failureCount : Nat
  totalDurationMS : Q
  avgDurationMS : Q
  minDurationMS : Q
  maxDurationMS : Q

/-- models.go `SessionPrompt` (auto-increment id not modelled). -/
structure SessionPrompt where
  sessionID : String
  promptText : String
  promptLength : Int
  timestamp : Int

/-- engine.go `Engine`: the six cache maps plus the prompt rows that
`ProcessLog` writes straight through the store. -/
structure EngineState where
  sessionsCache : List (String × Session)
  sessionModelsCache : List (String × List (String × SessionModel))
  sessionToolsCache : List (String × List (String × SessionTool))
  sessionCache : List (String × SessionStats)
  modelStatsCache : List (String × List (String × SessionModelStats))
  toolStatsCache : List (String × List (String × SessionToolStats))
  prompts : List SessionPrompt

/-- engine.go `NewEngine`: all caches empty. -/
def initEngineState : EngineState :=
  { sessionsCache := []
    sessionModelsCache := []
    sessionToolsCache := []
    sessionCache := []
    modelStatsCache := []
    toolStatsCache := []
    prompts := [] }

/-- Fresh `Session` as allocated by engine.go `getOrCreateSession`. -/
def freshSession (sid org user : String) (ts : Int) : Session :=
  { sessionID := sid
    organizationID := org
    userID := user
    startTime := ts
    endTime := 0
    totalCostUSD := Q.zero
    totalInputTokens := 0
    totalOutputTokens := 0
    totalCacheReadTokens := 0
    totalCacheCreationTokens := 0
    toolCallCount := 0
    apiRequestCount := 0
    apiErrorCount := 0
    userPromptCount := 0
    totalAPILatencyMS := Q.zero
    clientName := ""
    clientVersion := ""
    terminalType := ""
    hostArch := ""
    osType := ""
    osVersion := "" }

/-- Environment merge of engine.go `getOrCreateSession`: each field is
taken from the record's environment only the first time it is seen. -/
def applyEnv (env : SessionEnv) (s : Session) : Session :=
  { s with
    clientName := if s.clientName = "" ∧ env.clientName ≠ "" then env.clientName else s.clientName
    clientVersion := if s.clientVersion = "" ∧ env.clientVersion ≠ "" then env.clientVersion else s.clientVersion
    terminalType := if s.terminalType = "" ∧ env.terminalType ≠ "" then env.terminalType else s.terminalType
    hostArch := if s.hostArch = "" ∧ env.hostArch ≠ "" then env.hostArch else s.hostArch
    osType := if s.osType = "" ∧ env.osType ≠ "" then env.osType else s.osType
    osVersion := if s.osVersion = "" ∧ env.osVersion ≠ "" then env.osVersion else s.osVersion }

/-- engine.go `getOrCreateSession` followed by the per-record session
mutations `after`: create the session if absent, merge the environment,
set `EndTime` to the record timestamp (unconditionally, engine.go line
704), then apply the dispatch-specific mutation. -/
def getOrCreateSession (cache : List (String × Session)) (sid org user : String) (ts : Int)
    (env : SessionEnv) (after : Session → Session) : List (String × Session) :=
  alUpd cache sid (freshSession sid org user ts)
    (fun s => after { applyEnv env s with endTime := ts })

/-- Fresh `SessionModel` as allocated by engine.go `updateSessionModel`. -/
def freshSessionModel (sid model : String) : SessionModel :=
  { sessionID := sid
    model := model
    costUSD := Q.zero
    inputTokens := 0
    outputTokens := 0
    cacheReadTokens := 0
    cacheCreationTokens := 0
    requestCount := 0
    totalLatencyMS := Q.zero }

/-- engine.go `updateSessionModel`. -/
def updateSessionModel (cache : List (String × List (String × SessionModel)))
    (sid model : String) (f : SessionModel → SessionModel) :
    List (String × List (String × SessionModel)) :=
  alUpd cache sid [] (fun mm => alUpd mm model (freshSessionModel sid model) f)

/-- Fresh `SessionModelStats` as allocated by engine.go `updateModelStats`. -/
def freshModelStats (sid model : String) : SessionModelStats :=
  { sessionID := sid
    model := model
    costUSD := Q.zero
    inputTokens := 0
    outputTokens := 0
    cacheReadTokens := 0
    cacheCreationTokens := 0
    requestCount := 0
    totalLatencyMS := Q.zero
    avgLatencyMS := Q.zero }

/-- engine.go `updateModelStats` (legacy schema). -/
def updateModelStats (cache : List (String × List (String × SessionModelStats)))
    (sid model : String) (f : SessionModelStats → SessionModelStats) :
    List (String × List (String × SessionModelStats)) :=
  alUpd cache sid [] (fun mm => alUpd mm model (freshModelStats sid model) f)

/-- Fresh `SessionTool` as allocated by engine.go `updateSessionTool`. -/
def freshSessionTool (sid toolName : String) : SessionTool :=
  { sessionID := sid
    toolName := toolName
    callCount := 0
    successCount := 0
    failureCount := 0
    totalExecutionTimeMS := Q.zero
    autoApprovedCount := 0
    userApprovedCount := 0
    rejectedCount := 0
    totalResultSizeBytes := 0 }

/-- engine.go `updateSessionTool`. -/
def updateSessionTool (cache : List (String × List (String × SessionTool)))
    (sid toolName : String) (f : SessionTool → SessionTool) :
    List (String × List (String × SessionTool)) :=
  alUpd cache sid [] (fun tm => alUpd tm toolName (freshSessionTool sid toolName) f)

/-- Fresh `SessionToolStats` as allocated by engine.go `updateToolStats`. -/
def freshToolStats (sid toolName : String) : SessionToolStats :=
  { sessionID := sid
    toolName := toolName
    executionCount := 0
    successCount := 0
    failureCount := 0
    totalDurationMS := Q.zero
    avgDurationMS := Q.zero
    minDurationMS := Q.zero
    maxDurationMS := Q.zero }

/-- engine.go `updateToolStats` (legacy schema). -/
def updateToolStats (cache : List (String × List (String × SessionToolStats)))
    (sid toolName : String) (f : SessionToolStats → SessionToolStats) :
    List (String × List (String × SessionToolStats)) :=
  alUpd cache sid [] (fun tm => alUpd tm toolName (freshToolStats sid toolName) f)

/-- engine.go `addToModelsUsed` on the decoded list: append when not yet
present. -/
def addToModelsUsed (models : List String) (model : String) : List String :=
  if model ∈ models then models else models ++ [model]

/-- engine.go `addToToolsUsed` on the decoded map: `tools[toolName]++`. -/
def addToToolsUsed (tools : List (String × Nat)) (toolName : String) : List (String × Nat) :=
  alUpd tools toolName 0 (fun n => n + 1)

/-- Mutation applied to a `SessionToolStats` for one `tool_result`
record, engine.go lines 383-400: count the execution and the outcome,
and when the duration is positive accumulate the total, recompute the
average over ALL executions, and update the first-nonzero min and the
max. -/
def updateToolStatsFn (success : Bool) (durationMS : Q) (ts : SessionToolStats) :
    SessionToolStats :=
  let ts := { ts with executionCount := ts.executionCount + 1 }
  let ts :=
    if success then { ts with successCount := ts.successCount + 1 }
    else { ts with failureCount := ts.failureCount + 1 }
  if Q.lt Q.zero durationMS then
    let total := Q.add ts.totalDurationMS durationMS
    let avg := Q.div total (Q.ofInt ts.executionCount)
    let mn :=
      if ts.minDurationMS.num = 0 ∨ Q.lt durationMS ts.minDurationMS then durationMS
      else ts.minDurationMS
    let mx := if Q.lt ts.maxDurationMS durationMS then durationMS else ts.maxDurationMS
    { ts with
      totalDurationMS := total
      avgDurationMS := avg
      minDurationMS := mn
      maxDurationMS := mx }
  else ts

/-- Mutation applied to a `SessionTool` for one `tool_result` record,
engine.go lines 403-426: count the call and the outcome, accumulate
positive durations, classify the decision into exactly one of
rejected / auto-approved / user-approved, and accumulate the result
size. -/
def updateSessionToolFn (success : Bool) (durationMS : Q)
    (decisionSource decisionType : String) (resultSizeBytes : Int) (st : SessionTool) :
    SessionTool :=
  let st := { st with callCount := st.callCount + 1 }
  let st :=
    if success then { st with successCount := st.successCount + 1 }
    else { st with failureCount := st.failureCount + 1 }
  let st :=
    if Q.lt Q.zero durationMS then
      { st with totalExecutionTimeMS := Q.add st.totalExecutionTimeMS durationMS }
    else st
  let st :=
    if decisionType = "reject" then { st with rejectedCount := st.rejectedCount + 1 }
    else if decisionSource = "config" then { st with autoApprovedCount := st.autoApprovedCount + 1 }
    else { st with userApprovedCount := st.userApprovedCount + 1 }
  { st with totalResultSizeBytes := st.totalResultSizeBytes + resultSizeBytes }

/-- Cost value of a metric record, engine.go lines 174-183: `float64`
directly, `int64` converted, nil contributes nothing. -/
def metricCost (v : MetricValue) : Q :=
  match v with
  | MetricValue.doubleV c => c
  | MetricValue.intV c => Q.ofInt c
  | MetricValue.noneV => Q.zero

/-- Token value of a metric record, engine.go lines 201-207: `int64`
directly, `float64` truncated, nil is zero. -/
def metricTokenValue (v : MetricValue) : Int :=
  match v with
  | MetricValue.intV i => i
  | MetricValue.doubleV d => d.toIntTrunc
  | MetricValue.noneV => 0

/-- Dispatch of engine.go `ProcessMetric` on the new-schema session. -/
def metricSessionUpdate (r : MetricRecord) (s : Session) : Session :=
  if r.metricName = "claude_code.cost.usage" then
    match r.metricValue with
    | MetricValue.doubleV c => { s with totalCostUSD := Q.add s.totalCostUSD c }
    | MetricValue.intV c => { s with totalCostUSD := Q.add s.totalCostUSD (Q.ofInt c) }
    | MetricValue.noneV => s
  else if r.metricName = "claude_code.token.usage" then
    let tokenValue := metricTokenValue r.metricValue
    let tokenType := alGetD r.attributes "type" ""
    if tokenType = "input" then { s with totalInputTokens := s.totalInputTokens + tokenValue }
    else if tokenType = "output" then { s with totalOutputTokens := s.totalOutputTokens + tokenValue }
    else if tokenType = "cacheRead" then { s with totalCacheReadTokens := s.totalCacheReadTokens + tokenValue }
    else if tokenType = "cacheCreation" then { s with totalCacheCreationTokens := s.totalCacheCreationTokens + tokenValue }
    else s
  else s

/-- Dispatch of engine.go `ProcessMetric` on the legacy stats row. -/
def metricStatsUpdate (r : MetricRecord) (st : SessionStats) : SessionStats :=
  if r.metricName = "claude_code.session.count" then
    if st.startTime = 0 ∨ r.timestamp < st.startTime then { st with startTime := r.timestamp }
    else st
  else if r.metricName = "claude_code.cost.usage" then
    match r.metricValue with
    | MetricValue.doubleV c => { st with totalCostUSD := Q.add st.totalCostUSD c }
    | MetricValue.intV c => { st with totalCostUSD := Q.add st.totalCostUSD (Q.ofInt c) }
    | MetricValue.noneV => st
  else if r.metricName = "claude_code.token.usage" then
    let tokenValue := metricTokenValue r.metricValue
    let tokenType := alGetD r.attributes "type" ""
    if tokenType = "input" then { st with totalInputTokens := st.totalInputTokens + tokenValue }
    else if tokenType = "output" then { st with totalOutputTokens := st.totalOutputTokens + tokenValue }
    else if tokenType = "cacheRead" then { st with totalCacheReadTokens := st.totalCacheReadTokens + tokenValue }
    else if tokenType = "cacheCreation" then { st with totalCacheCreationTokens := st.totalCacheCreationTokens + tokenValue }
    else st
  else if r.metricName = "claude_code.active_time.total" then
    match r.metricValue with
    | MetricValue.doubleV c => { st with totalActiveTimeSeconds := Q.add st.totalActiveTimeSeconds c }
    | MetricValue.intV c => { st with totalActiveTimeSeconds := Q.add st.totalActiveTimeSeconds (Q.ofInt c) }
    | MetricValue.noneV => st
  else st

/-- Full legacy-stats mutation for one metric record: touch
`LastUpdateTime`, dispatch, then track the model in `ModelsUsed`. -/
def metricStatsFull (r : MetricRecord) (st : SessionStats) : SessionStats :=
  let st := { st with lastUpdateTime := r.timestamp }
  let st := metricStatsUpdate r st
  let model := alGetD r.attributes "model" ""
  if model ≠ "" then { st with modelsUsed := addToModelsUsed st.modelsUsed model } else st

/-- Per-model cache updates of engine.go `ProcessMetric` (new and legacy
schema simultaneously, as the source updates both). -/
def metricModelCaches (r : MetricRecord)
    (smc : List (String × List (String × SessionModel)))
    (msc : List (String × List (String × SessionModelStats))) :
    List (String × List (String × SessionModel)) ×
      List (String × List (String × SessionModelStats)) :=
  let model := alGetD r.attributes "model" ""
  if r.metricName = "claude_code.cost.usage" then
    let cost := metricCost r.metricValue
    if model ≠ "" ∧ Q.lt Q.zero cost then
      (updateSessionModel smc r.sessionID model
         (fun sm => { sm with costUSD := Q.add sm.costUSD cost, requestCount := sm.requestCount + 1 }),
       updateModelStats msc r.sessionID model
         (fun ms => { ms with costUSD := Q.add ms.costUSD cost, requestCount := ms.requestCount + 1 }))
    else (smc, msc)
  else if r.metricName = "claude_code.token.usage" then
    let tokenValue := metricTokenValue r.metricValue
    let tokenType := alGetD r.attributes "type" ""
    if model ≠ "" ∧ 0 < tokenValue then
      (updateSessionModel smc r.sessionID model
         (fun sm =>
           if tokenType = "input" then { sm with inputTokens := sm.inputTokens + tokenValue }
           else if tokenType = "output" then { sm with outputTokens := sm.outputTokens + tokenValue }
           else if tokenType = "cacheRead" then { sm with cacheReadTokens := sm.cacheReadTokens + tokenValue }
           else if tokenType = "cacheCreation" then { sm with cacheCreationTokens := sm.cacheCreationTokens + tokenValue }
           else sm),
       updateModelStats msc r.sessionID model
         (fun ms =>
           if tokenType = "input" then { ms with inputTokens := ms.inputTokens + tokenValue }
           else if tokenType = "output" then { ms with outputTokens := ms.outputTokens + tokenValue }
           else if tokenType = "cacheRead" then { ms with cacheReadTokens := ms.cacheReadTokens + tokenValue }
           else if tokenType = "cacheCreation" then { ms with cacheCreationTokens := ms.cacheCreationTokens + tokenValue }
           else ms))
    else (smc, msc)
  else (smc, msc)

/-- Fresh legacy stats row allocated by engine.go `ProcessMetric`. -/
def freshStatsFromMetric (r : MetricRecord) : SessionStats :=
  { sessionID := r.sessionID
    userID := r.userID
    organizationID := r.organizationID
    serviceName := r.serviceName
    startTime := r.timestamp
    lastUpdateTime := 0
    terminalType := alGetD r.attributes "terminal.type" ""
    hostArch := alGetD r.attributes "host.arch" ""
    osType := alGetD r.attributes "os.type" ""
    totalCostUSD := Q.zero
    totalInputTokens := 0
    totalOutputTokens := 0
    totalCacheReadTokens := 0
    totalCacheCreationTokens := 0
    totalActiveTimeSeconds := Q.zero
    apiRequestCount := 0
    userPromptCount := 0
    toolExecutionCount := 0
    toolSuccessCount := 0
    toolFailureCount := 0
    avgAPILatencyMS := Q.zero
    totalAPILatencyMS := Q.zero
    modelsUsed := []
    toolsUsed := [] }

/-- Environment derived from a metric record, engine.go lines 130-138. -/
def metricEnv (r : MetricRecord) : SessionEnv :=
  { clientName := r.serviceName
    clientVersion := alGetD r.attributes "service.version" ""
    terminalType := alGetD r.attributes "terminal.type" ""
    hostArch := alGetD r.attributes "host.arch" ""
    osType := alGetD r.attributes "os.type" ""
    osVersion := alGetD r.attributes "os.version" "" }

/-- engine.go `ProcessMetric`. -/
def ProcessMetric (st : EngineState) (r : MetricRecord) : EngineState :=
  if r.sessionID = "" then st
  else
    let sessionsCache :=
      getOrCreateSession st.sessionsCache r.sessionID r.organizationID r.userID r.timestamp
        (metricEnv r) (metricSessionUpdate r)
    let sessionCache :=
      alUpd st.sessionCache r.sessionID (freshStatsFromMetric r) (metricStatsFull r)
    let mm := metricModelCaches r st.sessionModelsCache st.modelStatsCache
    { st with
      sessionsCache := sessionsCache
      sessionCache := sessionCache
      sessionModelsCache := mm.1
      modelStatsCache := mm.2 }

/-- Environment derived from a log record, engine.go lines 278-281. -/
def logEnv (r : LogRecord) : SessionEnv :=
  { clientName := r.serviceName
    clientVersion := ""
    terminalType := extractString r.attributes "terminal.type"
    hostArch := ""
    osType := ""
    osVersion := "" }

/-- Fresh legacy stats row allocated by engine.go `ProcessLog` /
`ProcessTrace` (no terminal/host/os attributes on this path). -/
def freshStatsBare (sid user org service : String) (ts : Int) : SessionStats :=
  { sessionID := sid
    userID := user
    organizationID := org
    serviceName := service
    startTime := ts
    lastUpdateTime := 0
    terminalType := ""
    hostArch := ""
    osType := ""
    totalCostUSD := Q.zero
    totalInputTokens := 0
    totalOutputTokens := 0
    totalCacheReadTokens := 0
    totalCacheCreationTokens := 0
    totalActiveTimeSeconds := Q.zero
    apiRequestCount := 0
    userPromptCount := 0
    toolExecutionCount := 0
    toolSuccessCount := 0
    toolFailureCount := 0
    avgAPILatencyMS := Q.zero
    totalAPILatencyMS := Q.zero
    modelsUsed := []
    toolsUsed := [] }

/-- Branch selected by the `if/else if` marker dispatch of engine.go
`ProcessLog` (1 = api_request, 2 = api_error, 3 = user_prompt,
4 = tool_decision, 5 = tool_result, 0 = no marker). -/
def logBranch (body : String) : Nat :=
  if containsString body "claude_code.api_request" then 1
  else if containsString body "claude_code.api_error" then 2
  else if containsString body "claude_code.user_prompt" then 3
  else if containsString body "claude_code.tool_decision" then 4
  else if containsString body "claude_code.tool_result" then 5
  else 0

/-- New-schema session mutation of engine.go `ProcessLog` for one log
record (the branch dispatch restricted to the `session` pointer). -/
def logSessionFn (r : LogRecord) (s : Session) : Session :=
  if logBranch r.body = 1 then
    let durationMS := extractFloat r.attributes "duration_ms"
    let s := { s with apiRequestCount := s.apiRequestCount + 1 }
    if Q.lt Q.zero durationMS then
      { s with totalAPILatencyMS := Q.add s.totalAPILatencyMS durationMS }
    else s
  else if logBranch r.body = 2 then { s with apiErrorCount := s.apiErrorCount + 1 }
  else if logBranch r.body = 3 then { s with userPromptCount := s.userPromptCount + 1 }
  else if logBranch r.body = 5 then { s with toolCallCount := s.toolCallCount + 1 }
  else s

/-- Legacy stats mutation of engine.go `ProcessLog` for one log record
(the branch dispatch restricted to the `stats` pointer). -/
def logStatsFn (r : LogRecord) (s : SessionStats) : SessionStats :=
  if logBranch r.body = 1 then
    let durationMS := extractFloat r.attributes "duration_ms"
    let s := { s with apiRequestCount := s.apiRequestCount + 1 }
    if Q.lt Q.zero durationMS then
      let s := { s with totalAPILatencyMS := Q.add s.totalAPILatencyMS durationMS }
      { s with avgAPILatencyMS := Q.div s.totalAPILatencyMS (Q.ofInt s.apiRequestCount) }
    else s
  else if logBranch r.body = 3 then { s with userPromptCount := s.userPromptCount + 1 }
  else if logBranch r.body = 4 then
    let toolName := extractString r.attributes "tool_name"
    if toolName ≠ "" then { s with toolsUsed := addToToolsUsed s.toolsUsed toolName } else s
  else if logBranch r.body = 5 then
    let toolName := extractString r.attributes "tool_name"
    let success := extractBool r.attributes "success"
    let s := { s with toolExecutionCount := s.toolExecutionCount + 1 }
    let s :=
      if success then { s with toolSuccessCount := s.toolSuccessCount + 1 }
      else { s with toolFailureCount := s.toolFailureCount + 1 }
    if toolName ≠ "" then { s with toolsUsed := addToToolsUsed s.toolsUsed toolName } else s
  else s

/-- engine.go `ProcessLog`, decomposed per cache component: every branch
of the source first runs `getOrCreateSession` (which sets `EndTime`) and
touches the legacy row, so those two updates are unconditional; the
model, tool and prompt side effects fire exactly in the branch the
source performs them in (`logBranch` reproduces the `if/else if`
dispatch). -/
def ProcessLog (st : EngineState) (r : LogRecord) : EngineState :=
  if r.sessionID = "" then st
  else
    let a := r.attributes
    let br := logBranch r.body
    let toolName := extractString a "tool_name"
    let model := extractString a "model"
    let durationMS := extractFloat a "duration_ms"
    let promptText := extractString a "prompt"
    { st with
      sessionsCache :=
        getOrCreateSession st.sessionsCache r.sessionID r.organizationID r.userID r.timestamp
          (logEnv r) (logSessionFn r)
      sessionCache :=
        alUpd st.sessionCache r.sessionID
          (freshStatsBare r.sessionID r.userID r.organizationID r.serviceName r.timestamp)
          (fun s => logStatsFn r { s with lastUpdateTime := r.timestamp })
      sessionModelsCache :=
        if br = 1 ∧ model ≠ "" ∧ Q.lt Q.zero durationMS then
          updateSessionModel st.sessionModelsCache r.sessionID model
            (fun sm => { sm with totalLatencyMS := Q.add sm.totalLatencyMS durationMS })
        else st.sessionModelsCache
      modelStatsCache :=
        if br = 1 ∧ model ≠ "" ∧ Q.lt Q.zero durationMS then
          updateModelStats st.modelStatsCache r.sessionID model
            (fun ms =>
              let ms := { ms with totalLatencyMS := Q.add ms.totalLatencyMS durationMS }
              if 0 < ms.requestCount then
                { ms with avgLatencyMS := Q.div ms.totalLatencyMS (Q.ofInt ms.requestCount) }
              else ms)
        else st.modelStatsCache
      sessionToolsCache :=
        if br = 5 ∧ toolName ≠ "" then
          updateSessionTool st.sessionToolsCache r.sessionID toolName
            (updateSessionToolFn (extractBool a "success") durationMS
              (extractString a "decision_source") (extractString a "decision_type")
              (extractInt a "tool_result_size_bytes"))
        else st.sessionToolsCache
      toolStatsCache :=
        if br = 5 ∧ toolName ≠ "" then
          updateToolStats st.toolStatsCache r.sessionID toolName
            (updateToolStatsFn (extractBool a "success") durationMS)
        else st.toolStatsCache
      prompts :=
        if br = 3 ∧ promptText ≠ "" ∧ promptText ≠ "<REDACTED>" then
          st.prompts ++
            [{ sessionID := r.sessionID
               promptText := promptText
               promptLength := extractInt a "prompt_length"
               timestamp := r.timestamp }]
        else st.prompts }

/-- engine.go `ProcessTrace`: only the legacy stats row is touched (the
new-schema session cache is not consulted at all). -/
def ProcessTrace (st : EngineState) (r : TraceRecord) : EngineState :=
  if r.sessionID = "" then st
  else
    { st with
      sessionCache :=
        alUpd st.sessionCache r.sessionID
          (freshStatsBare r.sessionID r.userID r.organizationID r.serviceName r.timestamp)
          (fun s => { s with lastUpdateTime := r.timestamp }) }

/-- Fold one typed record into the engine cache. -/
def processRecord (st : EngineState) : Record → EngineState
  | Record.metric r => ProcessMetric st r
  | Record.log r => ProcessLog st r
  | Record.trace r => ProcessTrace st r

/-- Fold a stream of typed records into a fresh engine, in order. -/
def foldRecords (rs : List Record) : EngineState :=
  rs.foldl processRecord initEngineState

/-! Derived predicates and concrete inputs used by the claim theorems. -/

/-- Sum of `call_count` over the per-tool map of one session. -/
def toolSum (tm : List (String × SessionTool)) : Nat :=
  (tm.map (fun kv => kv.2.callCount)).sum

/-- New-schema `tool_call_count` of a session in the cache (0 when the
session is absent). -/
def sessToolCount (st : EngineState) (sid : String) : Nat :=
  ((alGet st.sessionsCache sid).map (fun s => s.toolCallCount)).getD 0

/-- Sum of `call_count` over a session's `SessionTool` rows (0 when the
session has none). -/
def sessToolSum (st : EngineState) (sid : String) : Nat :=
  toolSum ((alGet st.sessionToolsCache sid).getD [])

/-- Decision counters partition the call count of a `SessionTool`. -/
def toolDecisionInv (t : SessionTool) : Prop :=
  t.autoApprovedCount + t.userApprovedCount + t.rejectedCount = t.callCount

instance (t : SessionTool) : Decidable (toolDecisionInv t) := by
  unfold toolDecisionInv; infer_instance

/-- `toolDecisionInv` read through an optional lookup. -/
def optToolInv : Option SessionTool → Prop
  | none => True
  | some t => toolDecisionInv t

instance (o : Option SessionTool) : Decidable (optToolInv o) := by
  cases o <;> unfold optToolInv <;> infer_instance

/-- Hypothesis of the amended C5: every `tool_result` log record in the
stream carries a non-empty `tool_name`. -/
def toolResultNamed : Record → Prop
  | Record.log r =>
    containsString r.body "claude_code.tool_result" = true →
      extractString r.attributes "tool_name" ≠ ""
  | _ => True

instance : (r : Record) → Decidable (toolResultNamed r) := fun r => by
  cases r <;> unfold toolResultNamed <;> infer_instance

/-- The five session totals are non-negative (the two rational totals
additionally keep a positive denominator). -/
def totalsNonneg (s : Session) : Prop :=
  0 < s.totalCostUSD.den ∧ 0 ≤ s.totalCostUSD.num ∧
  0 ≤ s.totalInputTokens ∧ 0 ≤ s.totalOutputTokens ∧
  0 ≤ s.totalCacheReadTokens ∧ 0 ≤ s.totalCacheCreationTokens

instance (s : Session) : Decidable (totalsNonneg s) := by
  unfold totalsNonneg; infer_instance

/-- Pointwise order on the five session totals. -/
def totalsLe (s s' : Session) : Prop :=
  Q.le s.totalCostUSD s'.totalCostUSD ∧
  s.totalInputTokens ≤ s'.totalInputTokens ∧
  s.totalOutputTokens ≤ s'.totalOutputTokens ∧
  s.totalCacheReadTokens ≤ s'.totalCacheReadTokens ∧
  s.totalCacheCreationTokens ≤ s'.totalCacheCreationTokens

instance (s s' : Session) : Decidable (totalsLe s s') := by
  unfold totalsLe; infer_instance

/-- `totalsNonneg` read through an optional lookup. -/
def optTotalsNonneg : Option Session → Prop
  | none => True
  | some s => totalsNonneg s

instance (o : Option Session) : Decidable (optTotalsNonneg o) := by
  cases o <;> unfold optTotalsNonneg <;> infer_instance

/-- `totalsLe` read through optional lookups; a session present before
must still be present after. -/
def optTotalsLe : Option Session → Option Session → Prop
  | none, _ => True
  | some _, none => False
  | some s, some s' => totalsLe s s'

instance (o o' : Option Session) : Decidable (optTotalsLe o o') := by
  cases o <;> cases o' <;> unfold optTotalsLe <;> infer_instance

/-- Value carried by a metric record is non-negative (a nil value
contributes nothing and counts as such). -/
def metricValueNonneg : MetricValue → Prop
  | MetricValue.intV i => 0 ≤ i
  | MetricValue.doubleV q => 0 < q.den ∧ 0 ≤ q.num
  | MetricValue.noneV => True

instance (v : MetricValue) : Decidable (metricValueNonneg v) := by
  cases v <;> unfold metricValueNonneg <;> infer_instance

/-- Non-negativity hypothesis of the amended C9 over a record stream
(only metric values feed the totals). -/
def recordNonneg : Record → Prop
  | Record.metric r => metricValueNonneg r.metricValue
  | _ => True

instance : (r : Record) → Decidable (recordNonneg r) := fun r => by
  cases r <;> unfold recordNonneg <;> infer_instance

/-- Fold a sequence of tool_result outcomes (success flag, duration)
into one `SessionToolStats` row through engine.go's per-record mutation. -/
def applyToolResults (sid tname : String) (l : List (Bool × Q)) : SessionToolStats :=
  l.foldl (fun ts p => updateToolStatsFn p.1 p.2 ts) (freshToolStats sid tname)

/-- Wrapped-form line exercised by the repository's
backwards-compatibility test. -/
def wrappedLine : String := "\x7b\"data\":\"\x7b\\\"resourceMetrics\\\":[\x7b\\\"resource\\\":\x7b\\\"attributes\\\":[\x7b\\\"key\\\":\\\"service.name\\\",\\\"value\\\":\x7b\\\"stringValue\\\":\\\"test\\\"\x7d\x7d]\x7d,\\\"scopeMetrics\\\":[\x7b\\\"metrics\\\":[\x7b\\\"name\\\":\\\"test.metric\\\",\\\"sum\\\":\x7b\\\"dataPoints\\\":[\x7b\\\"timeUnixNano\\\":\\\"1000000000\\\",\\\"asDouble\\\":1.0\x7d]\x7d\x7d]\x7d]\x7d]\x7d\"\x7d"

/-- Direct-form line carrying the same OTLP envelope. -/
def directLine : String := "\x7b\"resourceMetrics\":[\x7b\"resource\":\x7b\"attributes\":[\x7b\"key\":\"service.name\",\"value\":\x7b\"stringValue\":\"test\"\x7d\x7d]\x7d,\"scopeMetrics\":[\x7b\"metrics\":[\x7b\"name\":\"test.metric\",\"sum\":\x7b\"dataPoints\":[\x7b\"timeUnixNano\":\"1000000000\",\"asDouble\":1.0\x7d]\x7d\x7d]\x7d]\x7d]\x7d"

/-- Unparseable line from the repository's invalid-JSON test. -/
def invalidLine : String := "\x7bnot valid json\x7d"

/-- Log record map whose attributes carry `session.id = "A"` (the C2
scenario). -/
def c2LogMap : List (String × JVal) :=
  [("timeUnixNano", JVal.str "1767173562293000000"),
   ("body", JVal.obj [("stringValue", JVal.str "some_event")]),
   ("attributes", JVal.arr
     [JVal.obj [("key", JVal.str "session.id"),
                ("value", JVal.obj [("stringValue", JVal.str "A")])]])]

/-- Resource attributes carrying `session.id = "B"` and fallback
identifiers (the C2 scenario). -/
def c2ResourceAttrs : List (String × String) :=
  [("service.name", "claude-code"), ("session.id", "B"),
   ("user.id", "B-user"), ("organization.id", "B-org")]

/-- Concrete tool_result log record with tagged attributes. -/
def toolResultLog (sid tname : String) (succ : Bool) (dur : Q) (ts : Int) : LogRecord :=
  { timestamp := ts
    sessionID := sid
    userID := "u"
    organizationID := "o"
    serviceName := "svc"
    severityText := ""
    body := "claude_code.tool_result"
    attributes :=
      [("tool_name", JVal.obj [("stringValue", JVal.str tname)]),
       ("success", JVal.obj [("boolValue", JVal.boolean succ)]),
       ("duration_ms", JVal.obj [("doubleValue", JVal.num dur)])] }

/-- Concrete cost metric record. -/
def costMetric (sid : String) (v : Q) (ts : Int) : MetricRecord :=
  { timestamp := ts
    sessionID := sid
    userID := "u"
    organizationID := "o"
    serviceName := "svc"
    metricName := "claude_code.cost.usage"
    metricValue := MetricValue.doubleV v
    attributes := [("model", "m")] }

/-- A tool_result log record with no attributes at all (C5
counterexample input: the session counter moves, no per-tool row does). -/
def bareToolResultLog : LogRecord :=
  { timestamp := 0
    sessionID := "s"
    userID := ""
    organizationID := ""
    serviceName := ""
    severityText := ""
    body := "claude_code.tool_result"
    attributes := [] }

/-- Durations 10, 0, 10 (C8 counterexample input: the zero-duration call
inflates the execution count). -/
def c8CexList : List (Bool × Q) := [(true, ⟨10, 1⟩), (true, ⟨0, 1⟩), (true, ⟨10, 1⟩)]

/-- Durations 45.2 and 12.3 (C8 witness input, the spec's S3 scenario). -/
def c8WitnessList : List (Bool × Q) := [(true, ⟨452, 10⟩), (false, ⟨123, 10⟩)]

/-- Invariant carried while folding positive-duration tool results:
count positive, denominators positive, the stored average equals the
total over the count, and min ≤ avg ≤ max with a positive min. -/
def c8Inv (ts : SessionToolStats) : Prop :=
  0 < ts.executionCount ∧
  0 < ts.totalDurationMS.den ∧ 0 < ts.avgDurationMS.den ∧
  0 < ts.minDurationMS.den ∧ 0 < ts.maxDurationMS.den ∧
  ts.avgDurationMS.val = ts.totalDurationMS.val / (ts.executionCount : ℚ) ∧
  0 < ts.minDurationMS.val ∧
  ts.minDurationMS.val ≤ ts.avgDurationMS.val ∧
  ts.avgDurationMS.val ≤ ts.maxDurationMS.val

/-! Bridge lemmas between the executable `Q` arithmetic and `ℚ`. -/

theorem Q.posden_zero : Q.posden Q.zero := by decide

theorem Q.posden_ofInt (n : Int) : Q.posden (Q.ofInt n) := by
  unfold Q.posden Q.ofInt; exact Int.zero_lt_one

theorem Q.val_zero : Q.zero.val = 0 := by
  unfold Q.val Q.zero; simp

theorem Q.val_ofInt (n : Int) : (Q.ofInt n).val = (n : ℚ) := by
  unfold Q.val Q.ofInt; simp

theorem Q.posden_add {a b : Q} (ha : Q.posden a) (hb : Q.posden b) : Q.posden (Q.add a b) := by
  unfold Q.posden Q.add at *; exact mul_pos ha hb

theorem Q.val_add {a b : Q} (ha : a.den ≠ 0) (hb : b.den ≠ 0) :
    (Q.add a b).val = a.val + b.val := by
  unfold Q.val Q.add
  have ha' : (a.den : ℚ) ≠ 0 := Int.cast_ne_zero.mpr ha
  have hb' : (b.den : ℚ) ≠ 0 := Int.cast_ne_zero.mpr hb
  push_cast
  field_simp

theorem Q.le_iff_val {a b : Q} (ha : Q.posden a) (hb : Q.posden b) :
    Q.le a b ↔ a.val ≤ b.val := by
  unfold Q.le Q.val Q.posden at *
  rw [div_le_div_iff (by exact_mod_cast ha) (by exact_mod_cast hb)]
  constructor <;> intro h <;> exact_mod_cast h

theorem Q.lt_iff_val {a b : Q} (ha : Q.posden a) (hb : Q.posden b) :
    Q.lt a b ↔ a.val < b.val := by
  unfold Q.lt Q.val Q.posden at *
  rw [div_lt_div_iff (by exact_mod_cast ha) (by exact_mod_cast hb)]
  constructor <;> intro h <;> exact_mod_cast h

theorem Q.zero_le_num {a : Q} : Q.le Q.zero a ↔ 0 ≤ a.num := by
  unfold Q.le Q.zero; simp

theorem Q.zero_le_val {a : Q} (ha : Q.posden a) : 0 ≤ a.val ↔ 0 ≤ a.num := by
  rw [← Q.val_zero, ← Q.le_iff_val Q.posden_zero ha, Q.zero_le_num]

theorem Q.posden_div_ofInt {a : Q} (ha : Q.posden a) {n : Int} (hn : 0 < n) :
    Q.posden (Q.div a (Q.ofInt n)) := by
  unfold Q.div Q.ofInt Q.posden at *
  rw [if_neg (not_lt.mpr hn.le)]
  simpa using mul_pos ha hn

theorem Q.val_div_ofInt {a : Q} (ha : a.den ≠ 0) {n : Int} (hn : 0 < n) :
    (Q.div a (Q.ofInt n)).val = a.val / (n : ℚ) := by
  unfold Q.div Q.ofInt Q.val
  rw [if_neg (not_lt.mpr hn.le)]
  have ha' : (a.den : ℚ) ≠ 0 := Int.cast_ne_zero.mpr ha
  have hn' : (n : ℚ) ≠ 0 := by exact_mod_cast hn.ne'
  push_cast
  field_simp

theorem Q.toIntTrunc_nonneg {a : Q} (ha : Q.posden a) (hnum : 0 ≤ a.num) :
    0 ≤ a.toIntTrunc := by
  unfold Q.toIntTrunc Q.posden at *
  rw [if_neg (by omega)]
  exact Int.tdiv_nonneg hnum (le_of_lt ha)

/-! Association-list lemmas. -/

theorem alGet_alUpd_self {α : Type} (l : List (String × α)) (k : String) (fresh : α)
    (f : α → α) : alGet (alUpd l k fresh f) k = some (f ((alGet l k).getD fresh)) := by
  induction l with
  | nil => simp [alGet, alUpd]
  | cons hd tl ih =>
    obtain ⟨k', v'⟩ := hd
    by_cases h : k' = k
    · subst h; simp [alGet, alUpd]
    · simp [alGet, alUpd, h, ih]

theorem alGet_alUpd_ne {α : Type} (l : List (String × α)) (k k' : String) (fresh : α)
    (f : α → α) (h : k ≠ k') : alGet (alUpd l k fresh f) k' = alGet l k' := by
  induction l with
  | nil => simp [alGet, alUpd, h]
  | cons hd tl ih =>
    obtain ⟨k₀, v₀⟩ := hd
    by_cases h0 : k₀ = k
    · subst h0; simp [alGet, alUpd, h]
    · simp [alGet, alUpd, h0, ih]

theorem alGet_alUpd_cases {α : Type} (l : List (String × α)) (k k' : String) (fresh : α)
    (f : α → α) (v : α) (h : alGet (alUpd l k fresh f) k' = some v) :
    alGet l k' = some v ∨ (k' = k ∧ v = f ((alGet l k).getD fresh)) := by
  by_cases hk : k = k'
  · subst hk
    rw [alGet_alUpd_self] at h
    right
    exact ⟨rfl, (Option.some.injEq _ _ ▸ h).symm⟩
  · left
    rw [alGet_alUpd_ne _ _ _ _ _ hk] at h
    exact h

theorem alGet_alInsert_self {α : Type} (l : List (String × α)) (k : String) (v : α) :
    alGet (alInsert l k v) k = some v := by
  induction l with
  | nil => simp [alGet, alInsert]
  | cons hd tl ih =>
    obtain ⟨k', v'⟩ := hd
    by_cases h : k' = k
    · subst h; simp [alGet, alInsert]
    · simp [alGet, alInsert, h, ih]

theorem alGet_alInsert_ne {α : Type} (l : List (String × α)) (k k' : String) (v : α)
    (h : k ≠ k') : alGet (alInsert l k v) k' = alGet l k' := by
  induction l with
  | nil => simp [alGet, alInsert, h]
  | cons hd tl ih =>
    obtain ⟨k₀, v₀⟩ := hd
    by_cases h0 : k₀ = k
    · subst h0; simp [alGet, alInsert, h]
    · simp [alGet, alInsert, h0, ih]

/-! Keys-without-duplicates machinery for the attribute merges. -/

/-- Keys of an association list occur at most once (true for every map
the embedded code builds, since all writes go through `alInsert`). -/
def keysNodup {α : Type} (l : List (String × α)) : Prop := (l.map Prod.fst).Nodup

theorem mem_keys_alInsert {α : Type} (l : List (String × α)) (k k' : String) (v : α) :
    k' ∈ (alInsert l k v).map Prod.fst ↔ k' = k ∨ k' ∈ l.map Prod.fst := by
  induction l with
  | nil => simp [alInsert]
  | cons hd tl ih =>
    obtain ⟨k0, v0⟩ := hd
    by_cases h0 : k0 = k
    · subst h0; simp [alInsert]
    · simp [alInsert, h0, ih]; tauto

theorem keysNodup_alInsert {α : Type} (l : List (String × α)) (k : String) (v : α)
    (h : keysNodup l) : keysNodup (alInsert l k v) := by
  induction l with
  | nil => simp [alInsert, keysNodup]
  | cons hd tl ih =>
    obtain ⟨k0, v0⟩ := hd
    unfold keysNodup at h ⊢
    simp only [List.map_cons, List.nodup_cons] at h
    by_cases h0 : k0 = k
    · subst h0
      have he : alInsert ((k0, v0) :: tl) k0 v = (k0, v) :: tl := by simp [alInsert]
      rw [he]
      simp only [List.map_cons, List.nodup_cons]
      exact h
    · simp only [alInsert, if_neg h0, List.map_cons, List.nodup_cons]
      refine ⟨?_, ih h.2⟩
      rw [mem_keys_alInsert]
      rintro (rfl | hmem)
      · exact h0 rfl
      · exact h.1 hmem

theorem alGet_eq_none_of_not_mem_keys {α : Type} (l : List (String × α)) (k : String)
    (h : k ∉ l.map Prod.fst) : alGet l k = none := by
  induction l with
  | nil => rfl
  | cons hd tl ih =>
    obtain ⟨k0, v0⟩ := hd
    simp only [List.map_cons, List.mem_cons, not_or] at h
    have h0 : ¬ k0 = k := fun hh => h.1 hh.symm
    simp [alGet, h0, ih h.2]

theorem alGet_mergeStrAttrs (over : List (String × String)) (base : List (String × String))
    (k : String) (h : keysNodup over) :
    alGet (mergeStrAttrs base over) k =
      match alGet over k with
      | some v => some v
      | none => alGet base k := by
  induction over generalizing base with
  | nil => simp [mergeStrAttrs, alGet]
  | cons hd tl ih =>
    obtain ⟨k0, v0⟩ := hd
    unfold keysNodup at h
    simp only [List.map_cons, List.nodup_cons] at h
    unfold mergeStrAttrs at ih ⊢
    simp only [List.foldl_cons]
    rw [ih (alInsert base k0 v0) h.2]
    by_cases hk : k0 = k
    · subst hk
      rw [alGet_eq_none_of_not_mem_keys tl k0 h.1]
      simp [alGet, alGet_alInsert_self]
    · simp [alGet, hk, alGet_alInsert_ne base k0 k v0 hk]

theorem keysNodup_logAttrStrings (l : List (String × JVal)) : keysNodup (logAttrStrings l) := by
  unfold logAttrStrings
  suffices h : ∀ acc : List (String × String), keysNodup acc →
      keysNodup (l.foldl
        (fun acc kv =>
          match kv.2 with
          | JVal.obj vm =>
            match alGet vm "stringValue" with
            | some (JVal.str s) => alInsert acc kv.1 s
            | _ => acc
          | _ => acc) acc) by
    exact h [] (by simp [keysNodup])
  induction l with
  | nil => intro acc hacc; simpa using hacc
  | cons hd tl ih =>
    intro acc hacc
    simp only [List.foldl_cons]
    apply ih
    split
    · split
      · exact keysNodup_alInsert _ _ _ hacc
      · exact hacc
    · exact hacc

/-! Byte-offset lemmas for the processor pass. -/

theorem lineBytes_pos (l : String) : 0 < lineBytes l := by
  unfold lineBytes; omega

theorem byteLen_append (a b : List String) : byteLen (a ++ b) = byteLen a + byteLen b := by
  simp [byteLen]

theorem byteLen_pos_of_mem {l : String} {ls : List String} (h : l ∈ ls) : 0 < byteLen ls := by
  induction ls with
  | nil => cases h
  | cons x xs ih =>
    have := lineBytes_pos x
    simp [byteLen, List.map_cons, List.sum_cons]
    omega

theorem dropToOffset_zero (ls : List String) : dropToOffset ls 0 = ls := by
  cases ls <;> rfl

theorem dropToOffset_cons_of_le (l : String) (ls : List String) (off : Nat)
    (h1 : lineBytes l ≤ off) (h2 : off ≠ 0) :
    dropToOffset (l :: ls) off = dropToOffset ls (off - lineBytes l) := by
  cases off with
  | zero => omega
  | succ m => simp [dropToOffset, h1]

theorem dropToOffset_byteLen (a b : List String) : dropToOffset (a ++ b) (byteLen a) = b := by
  induction a with
  | nil =>
    simp only [List.nil_append]
    rw [show byteLen [] = 0 from rfl, dropToOffset_zero]
  | cons x xs ih =>
    have hx := lineBytes_pos x
    have hb : byteLen (x :: xs) = lineBytes x + byteLen xs := by
      simp [byteLen]
    rw [List.cons_append, hb, dropToOffset_cons_of_le x (xs ++ b) _ (by omega) (by omega)]
    simpa [Nat.add_sub_cancel_left] using ih

/-! Claim theorems. -/

/-- C1: when the stored processing state carries a non-zero inode and the
current file's inode differs, a `ProcessFile` pass resets the cursor to 0
and re-reads the file from the beginning — it feeds every non-blank line
of the whole file and persists the full file length as the new offset —
even though the current size is strictly larger than the stored offset
(no size decrease is needed to detect the rotation). -/
theorem c1_inode_rotation_resets_cursor (state : ProcessingState) (curInode : Nat)
    (fileLines : List String)
    (hinode : state.inode ≠ 0) (hdiff : curInode ≠ state.inode)
    (hgrow : state.lastByteOffset < byteLen fileLines)
    (hnb : ∃ l ∈ fileLines, isBlankLine l = false) :
    (ProcessFile state curInode fileLines).processed =
      fileLines.filter (fun l => ¬ isBlankLine l) ∧
    (ProcessFile state curInode fileLines).finalState.lastByteOffset = byteLen fileLines := by
  obtain ⟨l0, hl0, hbl⟩ := hnb
  have hpos : 0 < byteLen fileLines := byteLen_pos_of_mem hl0
  have hmem : l0 ∈ fileLines.filter (fun l => ¬ isBlankLine l) := by
    rw [List.mem_filter]
    exact ⟨hl0, by simp [hbl]⟩
  have hflt : 0 < (fileLines.filter (fun l => ¬ isBlankLine l)).length :=
    List.length_pos.mpr (List.ne_nil_of_mem hmem)
  unfold ProcessFile
  simp only [if_pos (And.intro hinode hdiff)]
  rw [if_neg (by simp; omega), dropToOffset_zero, if_pos hflt]
  exact ⟨rfl, by simp⟩

/-- C1 witness: stored state (offset 3, size 3, inode 1); the file now
has inode 2 and 11 bytes — larger than the stored offset — and the pass
re-reads everything from offset 0. -/
theorem c1_inode_rotation_resets_cursor_witness :
    ((⟨"metrics.jsonl", 3, 3, 1⟩ : ProcessingState).inode ≠ 0 ∧
     (2 : Nat) ≠ (⟨"metrics.jsonl", 3, 3, 1⟩ : ProcessingState).inode ∧
     (⟨"metrics.jsonl", 3, 3, 1⟩ : ProcessingState).lastByteOffset <
       byteLen ["aaaa", "", "bbbb"] ∧
     (∃ l ∈ ["aaaa", "", "bbbb"], isBlankLine l = false)) ∧
    (ProcessFile ⟨"metrics.jsonl", 3, 3, 1⟩ 2 ["aaaa", "", "bbbb"]).processed =
      ["aaaa", "bbbb"] ∧
    (ProcessFile ⟨"metrics.jsonl", 3, 3, 1⟩ 2 ["aaaa", "", "bbbb"]).finalState.lastByteOffset
      = 11 := by
  have h := c1_inode_rotation_resets_cursor ⟨"metrics.jsonl", 3, 3, 1⟩ 2 ["aaaa", "", "bbbb"]
    (by decide) (by decide) (by decide) (by decide)
  exact ⟨⟨by decide, by decide, by decide, by decide⟩, h.1.trans (by decide), h.2.trans (by decide)⟩

/-- C2: identifier precedence of `extractLogRecord` — for each of
session_id, user_id and organization_id, a string-valued per-log-record
attribute wins over the resource-level attribute, and when the log
record carries none, the resource-level attribute is the fallback. -/
theorem c2_identifier_precedence (logMap : List (String × JVal))
    (rAttrs : List (String × String)) :
    (∀ v, alGet (logAttrStrings (logTagged logMap)) "session.id" = some v →
        (extractLogRecord logMap rAttrs).sessionID = v) ∧
    (alGet (logAttrStrings (logTagged logMap)) "session.id" = none →
        (extractLogRecord logMap rAttrs).sessionID = alGetD rAttrs "session.id" "") ∧
    (∀ v, alGet (logAttrStrings (logTagged logMap)) "user.id" = some v →
        (extractLogRecord logMap rAttrs).userID = v) ∧
    (alGet (logAttrStrings (logTagged logMap)) "user.id" = none →
        (extractLogRecord logMap rAttrs).userID = alGetD rAttrs "user.id" "") ∧
    (∀ v, alGet (logAttrStrings (logTagged logMap)) "organization.id" = some v →
        (extractLogRecord logMap rAttrs).organizationID = v) ∧
    (alGet (logAttrStrings (logTagged logMap)) "organization.id" = none →
        (extractLogRecord logMap rAttrs).organizationID = alGetD rAttrs "organization.id" "") := by
  have hnd := keysNodup_logAttrStrings (logTagged logMap)
  refine ⟨fun v hv => ?_, fun hv => ?_, fun v hv => ?_, fun hv => ?_, fun v hv => ?_, fun hv => ?_⟩ <;>
    simp only [extractLogRecord, alGetD] <;>
    rw [alGet_mergeStrAttrs _ _ _ hnd] <;>
    rw [hv] <;> rfl

/-- C2 witness: the spec's scenario — log attributes carry
`session.id = "A"`, resource attributes carry `session.id = "B"`; the
extracted record reads "A"; `user.id` is absent from the log attributes
and falls back to the resource value. -/
theorem c2_identifier_precedence_witness :
    (alGet (logAttrStrings (logTagged c2LogMap)) "session.id" = some "A" ∧
     (extractLogRecord c2LogMap c2ResourceAttrs).sessionID = "A") ∧
    (alGet (logAttrStrings (logTagged c2LogMap)) "user.id" = none ∧
     (extractLogRecord c2LogMap c2ResourceAttrs).userID = "B-user") := by
  have h := c2_identifier_precedence c2LogMap c2ResourceAttrs
  exact ⟨⟨by decide, h.1 "A" (by decide)⟩,
         ⟨by decide, (h.2.2.2.1 (by decide)).trans (by decide)⟩⟩

/-- C3: `processLine` succeeds both on the legacy wrapped form
`{"data": "<json-encoded envelope>"}` and on the direct form carrying
the same envelope, and returns an error for a line that is not
parseable JSON. -/
theorem c3_processLine_line_shapes :
    (processLine "metrics.jsonl" wrappedLine).isOk = true ∧
    (processLine "metrics.jsonl" directLine).isOk = true ∧
    (processLine "metrics.jsonl" invalidLine).isOk = false := by decide

/-- C4 counterexample: a pass over one appended blank line advances the
in-memory cursor but skips the final state write (no non-blank line was
processed), so the persisted offset stays 0 instead of the previous
offset plus len(line)+1 = 1 that the claim demands. -/
theorem c4_blank_only_pass_counterexample :
    (ProcessFile ⟨"metrics.jsonl", 0, 0, 0⟩ 1 [""]).finalState.lastByteOffset = 0 ∧
    byteLen [""] = 1 ∧
    (ProcessFile ⟨"metrics.jsonl", 0, 0, 0⟩ 1 [""]).finalState.lastByteOffset ≠ 0 + byteLen [""] := by
  decide

/-- C4 (amended): after a pass over N appended lines of which at least
one is non-blank, the persisted offset equals the previous offset plus
Σ (len(line)+1) over all N appended lines — blank lines and lines whose
processing failed included (every non-blank line is fed regardless of
its content); when every appended line is blank the final state write is
skipped and the persisted offset keeps its previous value. -/
theorem c4_offset_advance (fname : String) (ino : Nat) (oldLines newLines : List String)
    (hnb : ∃ l ∈ newLines, isBlankLine l = false) :
    (ProcessFile ⟨fname, byteLen oldLines, byteLen oldLines, ino⟩ ino
        (oldLines ++ newLines)).finalState.lastByteOffset =
      byteLen oldLines + byteLen newLines ∧
    (ProcessFile ⟨fname, byteLen oldLines, byteLen oldLines, ino⟩ ino
        (oldLines ++ newLines)).processed =
      newLines.filter (fun l => ¬ isBlankLine l) := by
  obtain ⟨l0, hl0, hbl⟩ := hnb
  have hpos : 0 < byteLen newLines := byteLen_pos_of_mem hl0
  have happ : byteLen (oldLines ++ newLines) = byteLen oldLines + byteLen newLines :=
    byteLen_append _ _
  have hmem : l0 ∈ newLines.filter (fun l => ¬ isBlankLine l) := by
    rw [List.mem_filter]
    exact ⟨hl0, by simp [hbl]⟩
  have hflt : 0 < (newLines.filter (fun l => ¬ isBlankLine l)).length :=
    List.length_pos.mpr (List.ne_nil_of_mem hmem)
  simp only [ProcessFile]
  split_ifs <;>
    simp_all [byteLen_append, dropToOffset_byteLen]

/-- C4 witness: previous cursor at 3 bytes; three appended lines "bb",
"" and "c" (7 bytes with newlines) move the persisted offset to 10. -/
theorem c4_offset_advance_witness :
    (∃ l ∈ ["bb", "", "c"], isBlankLine l = false) ∧
    (ProcessFile ⟨"logs.jsonl", byteLen ["aa"], byteLen ["aa"], 7⟩ 7
        (["aa"] ++ ["bb", "", "c"])).finalState.lastByteOffset =
      byteLen ["aa"] + byteLen ["bb", "", "c"] ∧
    (ProcessFile ⟨"logs.jsonl", byteLen ["aa"], byteLen ["aa"], 7⟩ 7
        (["aa"] ++ ["bb", "", "c"])).processed = ["bb", "c"] := by
  have h := c4_offset_advance "logs.jsonl" 7 ["aa"] ["bb", "", "c"] (by decide)
  exact ⟨by decide, h.1, h.2.trans (by decide)⟩

/-- C7 counterexample: the tagged wrapper carrying a *string* spelling,
`{"intValue": "1500"}`, extracts as 0 rather than 1500 — `extractInt`
accepts only a numeric `intValue` (or a `stringValue`) inside a tagged
wrapper — while the number wrapper and the raw primitive do yield 1500. -/
theorem c7_intvalue_string_counterexample :
    extractInt [("k", JVal.obj [("intValue", JVal.num ⟨1500, 1⟩)])] "k" = 1500 ∧
    extractInt [("k", JVal.num ⟨1500, 1⟩)] "k" = 1500 ∧
    extractInt [("k", JVal.obj [("intValue", JVal.str "1500")])] "k" = 0 ∧
    extractInt [("k", JVal.obj [("intValue", JVal.str "1500")])] "k" ≠ 1500 := by decide

/-- C7 (amended): integer extraction yields 1500 for the tagged wrapper
`{"intValue": 1500}` with a JSON number, for the raw primitive 1500, for
the raw string "1500", and for `{"stringValue": "1500"}`; but the tagged
wrapper `{"intValue": "1500"}` with a string spelling is not recognised
and yields 0. -/
theorem c7_intvalue_forms :
    extractInt [("k", JVal.obj [("intValue", JVal.num ⟨1500, 1⟩)])] "k" = 1500 ∧
    extractInt [("k", JVal.num ⟨1500, 1⟩)] "k" = 1500 ∧
    extractInt [("k", JVal.str "1500")] "k" = 1500 ∧
    extractInt [("k", JVal.obj [("stringValue", JVal.str "1500")])] "k" = 1500 ∧
    extractInt [("k", JVal.obj [("intValue", JVal.str "1500")])] "k" = 0 := by decide

/-! Engine helper lemmas. -/

theorem alGet_getOrCreateSession_self (cache : List (String × Session))
    (sid org user : String) (ts : Int) (env : SessionEnv) (after : Session → Session) :
    alGet (getOrCreateSession cache sid org user ts env after) sid =
      some (after
        { applyEnv env ((alGet cache sid).getD (freshSession sid org user ts)) with
          endTime := ts }) := by
  unfold getOrCreateSession
  exact alGet_alUpd_self _ _ _ _

theorem alGet_getOrCreateSession_ne (cache : List (String × Session))
    (sid org user : String) (ts : Int) (env : SessionEnv) (after : Session → Session)
    (k : String) (h : sid ≠ k) :
    alGet (getOrCreateSession cache sid org user ts env after) k = alGet cache k := by
  unfold getOrCreateSession
  exact alGet_alUpd_ne _ _ _ _ _ h

theorem metricSessionUpdate_endTime (r : MetricRecord) (s : Session) :
    (metricSessionUpdate r s).endTime = s.endTime := by
  simp only [metricSessionUpdate]
  repeat' split
  all_goals rfl

theorem metricSessionUpdate_toolCallCount (r : MetricRecord) (s : Session) :
    (metricSessionUpdate r s).toolCallCount = s.toolCallCount := by
  simp only [metricSessionUpdate]
  repeat' split
  all_goals rfl

theorem logSessionFn_endTime (r : LogRecord) (s : Session) :
    (logSessionFn r s).endTime = s.endTime := by
  simp only [logSessionFn]
  repeat' split
  all_goals rfl

theorem logSessionFn_toolCallCount (r : LogRecord) (s : Session) :
    (logSessionFn r s).toolCallCount =
      if logBranch r.body = 5 then s.toolCallCount + 1 else s.toolCallCount := by
  simp only [logSessionFn]
  repeat' split
  all_goals simp_all

theorem ProcessMetric_toolsCache (st : EngineState) (r : MetricRecord) :
    (ProcessMetric st r).sessionToolsCache = st.sessionToolsCache := by
  simp only [ProcessMetric]
  split <;> rfl

theorem ProcessTrace_sessionsCache (st : EngineState) (r : TraceRecord) :
    (ProcessTrace st r).sessionsCache = st.sessionsCache := by
  simp only [ProcessTrace]
  split <;> rfl

theorem ProcessTrace_toolsCache (st : EngineState) (r : TraceRecord) :
    (ProcessTrace st r).sessionToolsCache = st.sessionToolsCache := by
  simp only [ProcessTrace]
  split <;> rfl

/-- C6 counterexample: folding a cost metric at t = 100 and then one at
t = 50 for the same session leaves end_time at 50 — `getOrCreateSession`
assigns the record timestamp unconditionally — not at
max(100, 50) = 100 as the claim requires. -/
theorem c6_endTime_counterexample :
    ((alGet (foldRecords [Record.metric (costMetric "s" ⟨125, 100⟩ 100)]).sessionsCache
        "s").map Session.endTime = some 100) ∧
    ((alGet (foldRecords [Record.metric (costMetric "s" ⟨125, 100⟩ 100),
        Record.metric (costMetric "s" ⟨75, 100⟩ 50)]).sessionsCache "s").map
        Session.endTime = some 50) ∧
    ¬ ((alGet (foldRecords [Record.metric (costMetric "s" ⟨125, 100⟩ 100),
        Record.metric (costMetric "s" ⟨75, 100⟩ 50)]).sessionsCache "s").map
        Session.endTime = some (max 100 50)) := by decide

/-- C6 (amended): folding a metric or log record with a non-empty
session id sets the session's end_time to the record's timestamp
unconditionally (so an out-of-order record moves end_time backwards),
and folding a trace record leaves the new-schema session cache — hence
its end_time — completely untouched. -/
theorem c6_endTime_assignment (st : EngineState) :
    (∀ r : MetricRecord, r.sessionID ≠ "" →
      (alGet (ProcessMetric st r).sessionsCache r.sessionID).map Session.endTime =
        some r.timestamp) ∧
    (∀ r : LogRecord, r.sessionID ≠ "" →
      (alGet (ProcessLog st r).sessionsCache r.sessionID).map Session.endTime =
        some r.timestamp) ∧
    (∀ r : TraceRecord, (ProcessTrace st r).sessionsCache = st.sessionsCache) := by
  refine ⟨fun r hr => ?_, fun r hr => ?_, fun r => ProcessTrace_sessionsCache st r⟩
  · simp only [ProcessMetric, if_neg hr]
    rw [alGet_getOrCreateSession_self]
    simp [metricSessionUpdate_endTime]
  · simp only [ProcessLog, if_neg hr]
    rw [alGet_getOrCreateSession_self]
    simp [logSessionFn_endTime]

/-- C6 witness: a first record for a fresh session stamps end_time with
its timestamp. -/
theorem c6_endTime_assignment_witness :
    (costMetric "s" ⟨125, 100⟩ 100).sessionID ≠ "" ∧
    (alGet (ProcessMetric initEngineState (costMetric "s" ⟨125, 100⟩ 100)).sessionsCache
        (costMetric "s" ⟨125, 100⟩ 100).sessionID).map Session.endTime =
      some (costMetric "s" ⟨125, 100⟩ 100).timestamp :=
  ⟨by decide, (c6_endTime_assignment initEngineState).1 (costMetric "s" ⟨125, 100⟩ 100) (by decide)⟩

theorem toolDecisionInv_fresh (sid tname : String) :
    toolDecisionInv (freshSessionTool sid tname) := by
  simp [toolDecisionInv, freshSessionTool]

theorem updateSessionToolFn_callCount (succ : Bool) (d : Q) (ds dt : String) (rsz : Int)
    (t : SessionTool) :
    (updateSessionToolFn succ d ds dt rsz t).callCount = t.callCount + 1 := by
  simp only [updateSessionToolFn]
  repeat' split
  all_goals rfl

theorem updateSessionToolFn_inv (succ : Bool) (d : Q) (ds dt : String) (rsz : Int)
    (t : SessionTool) (h : toolDecisionInv t) :
    toolDecisionInv (updateSessionToolFn succ d ds dt rsz t) := by
  unfold toolDecisionInv at *
  simp only [updateSessionToolFn]
  repeat' split
  all_goals simp_all
  all_goals omega

theorem allToolsInv_updateSessionTool
    (c : List (String × List (String × SessionTool))) (sid tname : String)
    (f : SessionTool → SessionTool)
    (hf : ∀ t, toolDecisionInv t → toolDecisionInv (f t))
    (hc : ∀ sid' tm, alGet c sid' = some tm → ∀ tn t, alGet tm tn = some t → toolDecisionInv t) :
    ∀ sid' tm, alGet (updateSessionTool c sid tname f) sid' = some tm →
      ∀ tn t, alGet tm tn = some t → toolDecisionInv t := by
  intro sid' tm htm tn t ht
  unfold updateSessionTool at htm
  rcases alGet_alUpd_cases _ _ _ _ _ _ htm with hold | ⟨hsid, rfl⟩
  · exact hc _ _ hold _ _ ht
  · rcases alGet_alUpd_cases _ _ _ _ _ _ ht with hold2 | ⟨htn, rfl⟩
    · cases hcs : alGet c sid with
      | none => rw [hcs] at hold2; simp [alGet] at hold2
      | some om =>
        rw [hcs] at hold2
        exact hc _ _ hcs _ _ hold2
    · subst htn
      apply hf
      cases hcs : alGet c sid with
      | none =>
        simpa [alGet] using toolDecisionInv_fresh sid tn
      | some om =>
        simp only [Option.getD_some]
        cases hom : alGet om tn with
        | none => simpa [hom] using toolDecisionInv_fresh sid tn
        | some t0 => simpa [hom] using hc _ _ hcs _ _ hom

theorem allToolsInv_processRecord (st : EngineState) (r : Record)
    (hc : ∀ sid tm, alGet st.sessionToolsCache sid = some tm →
      ∀ tn t, alGet tm tn = some t → toolDecisionInv t) :
    ∀ sid tm, alGet (processRecord st r).sessionToolsCache sid = some tm →
      ∀ tn t, alGet tm tn = some t → toolDecisionInv t := by
  cases r with
  | metric r =>
    have he : (processRecord st (Record.metric r)).sessionToolsCache = st.sessionToolsCache :=
      ProcessMetric_toolsCache st r
    rw [he]; exact hc
  | trace r =>
    have he : (processRecord st (Record.trace r)).sessionToolsCache = st.sessionToolsCache :=
      ProcessTrace_toolsCache st r
    rw [he]; exact hc
  | log r =>
    show ∀ sid tm, alGet (ProcessLog st r).sessionToolsCache sid = some tm →
      ∀ tn t, alGet tm tn = some t → toolDecisionInv t
    simp only [ProcessLog]
    split
    · exact hc
    · simp only
      split
      · exact allToolsInv_updateSessionTool _ _ _ _
          (fun t ht => updateSessionToolFn_inv _ _ _ _ _ _ ht) hc
      · exact hc

theorem allToolsInv_fold (rs : List Record) (st : EngineState)
    (hc : ∀ sid tm, alGet st.sessionToolsCache sid = some tm →
      ∀ tn t, alGet tm tn = some t → toolDecisionInv t) :
    ∀ sid tm, alGet (rs.foldl processRecord st).sessionToolsCache sid = some tm →
      ∀ tn t, alGet tm tn = some t → toolDecisionInv t := by
  induction rs generalizing st with
  | nil => exact hc
  | cons r rest ih => exact ih _ (allToolsInv_processRecord st r hc)

/-- C10: after folding any record stream from a fresh engine, every
`SessionTool` row satisfies
auto_approved_count + user_approved_count + rejected_count = call_count:
each tool_result that increments `call_count` increments exactly one of
the three decision counters (reject beats config beats the user-approved
default, which also absorbs records with no decision attributes). -/
theorem c10_decision_partition (rs : List Record) (sid tname : String) :
    optToolInv (alGet ((alGet (foldRecords rs).sessionToolsCache sid).getD []) tname) := by
  have h := allToolsInv_fold rs initEngineState
    (by intro sid' tm htm; simp [initEngineState, alGet] at htm)
  cases hcs : alGet (foldRecords rs).sessionToolsCache sid with
  | none => simp [optToolInv, alGet]
  | some tm =>
    cases hom : alGet tm tname with
    | none => simp [optToolInv, hom]
    | some t => simpa [optToolInv, hom] using h sid tm hcs tname t hom

theorem toolSum_alUpd (tm : List (String × SessionTool)) (k : String) (fresh : SessionTool)
    (f : SessionTool → SessionTool)
    (hf : ∀ t, (f t).callCount = t.callCount + 1) (hfresh : fresh.callCount = 0) :
    toolSum (alUpd tm k fresh f) = toolSum tm + 1 := by
  induction tm with
  | nil => simp [toolSum, alUpd, hf, hfresh]
  | cons hd tl ih =>
    obtain ⟨k0, v0⟩ := hd
    by_cases h : k0 = k
    · subst h
      simp [toolSum, alUpd, hf]
      omega
    · simp [toolSum, alUpd, h] at ih ⊢
      omega

theorem logBranch_five_contains (body : String) (h : logBranch body = 5) :
    containsString body "claude_code.tool_result" = true := by
  unfold logBranch at h
  split_ifs at h <;> simp_all

theorem c5_processRecord (st : EngineState) (r : Record) (hr : toolResultNamed r)
    (hinv : ∀ sid, sessToolCount st sid = sessToolSum st sid) :
    ∀ sid, sessToolCount (processRecord st r) sid = sessToolSum (processRecord st r) sid := by
  intro sid
  cases r with
  | trace r =>
    show sessToolCount (ProcessTrace st r) sid = sessToolSum (ProcessTrace st r) sid
    unfold sessToolCount sessToolSum
    rw [ProcessTrace_sessionsCache, ProcessTrace_toolsCache]
    exact hinv sid
  | metric r =>
    show sessToolCount (ProcessMetric st r) sid = sessToolSum (ProcessMetric st r) sid
    unfold sessToolCount sessToolSum
    rw [ProcessMetric_toolsCache]
    by_cases hs : r.sessionID = ""
    · simp only [ProcessMetric, if_pos hs]
      exact hinv sid
    · simp only [ProcessMetric, if_neg hs]
      by_cases hk : r.sessionID = sid
      · subst hk
        rw [alGet_getOrCreateSession_self]
        have hinv' := hinv r.sessionID
        unfold sessToolCount sessToolSum at hinv'
        cases hcs : alGet st.sessionsCache r.sessionID with
        | some s =>
          rw [hcs] at hinv'
          simpa [metricSessionUpdate_toolCallCount, applyEnv] using hinv'
        | none =>
          rw [hcs] at hinv'
          simpa [metricSessionUpdate_toolCallCount, applyEnv, freshSession] using hinv'
      · rw [alGet_getOrCreateSession_ne _ _ _ _ _ _ _ _ hk]
        exact hinv sid
  | log r =>
    show sessToolCount (ProcessLog st r) sid = sessToolSum (ProcessLog st r) sid
    by_cases hs : r.sessionID = ""
    · unfold sessToolCount sessToolSum
      simp only [ProcessLog, if_pos hs]
      exact hinv sid
    · unfold sessToolCount sessToolSum
      simp only [ProcessLog, if_neg hs]
      by_cases hk : r.sessionID = sid
      · subst hk
        rw [alGet_getOrCreateSession_self]
        have hinv' := hinv r.sessionID
        unfold sessToolCount sessToolSum at hinv'
        by_cases hbr : logBranch r.body = 5
        · have hname : extractString r.attributes "tool_name" ≠ "" :=
            hr (logBranch_five_contains r.body hbr)
          rw [if_pos ⟨hbr, hname⟩]
          unfold updateSessionTool
          rw [alGet_alUpd_self]
          simp only [Option.getD_some]
          rw [toolSum_alUpd _ _ _ _ (fun t => updateSessionToolFn_callCount _ _ _ _ _ t) rfl]
          cases hcs : alGet st.sessionsCache r.sessionID with
          | some s =>
            rw [hcs] at hinv'
            simp only [Option.map_some', Option.getD_some] at hinv' ⊢
            rw [logSessionFn_toolCallCount, if_pos hbr]
            simpa [applyEnv] using hinv'
          | none =>
            rw [hcs] at hinv'
            simp only [Option.map_none', Option.getD_none] at hinv'
            simp only [Option.map_some', Option.getD_some]
            rw [logSessionFn_toolCallCount, if_pos hbr]
            simp [applyEnv, freshSession, ← hinv']
        · rw [if_neg (by tauto)]
          cases hcs : alGet st.sessionsCache r.sessionID with
          | some s =>
            rw [hcs] at hinv'
            simp only [Option.map_some', Option.getD_some] at hinv' ⊢
            rw [logSessionFn_toolCallCount, if_neg hbr]
            simpa [applyEnv] using hinv'
          | none =>
            rw [hcs] at hinv'
            simp only [Option.map_none', Option.getD_none] at hinv'
            simp only [Option.map_some', Option.getD_some]
            rw [logSessionFn_toolCallCount, if_neg hbr]
            simp [applyEnv, freshSession, ← hinv']
      · rw [alGet_getOrCreateSession_ne _ _ _ _ _ _ _ _ hk]
        have htc : ∀ c : List (String × List (String × SessionTool)),
            alGet (if logBranch r.body = 5 ∧ extractString r.attributes "tool_name" ≠ "" then
              updateSessionTool c r.sessionID (extractString r.attributes "tool_name")
                (updateSessionToolFn (extractBool r.attributes "success")
                  (extractFloat r.attributes "duration_ms")
                  (extractString r.attributes "decision_source")
                  (extractString r.attributes "decision_type")
                  (extractInt r.attributes "tool_result_size_bytes"))
            else c) sid = alGet c sid := by
          intro c
          split
          · unfold updateSessionTool
            exact alGet_alUpd_ne _ _ _ _ _ hk
          · rfl
        rw [htc]
        exact hinv sid

theorem c5_fold (rs : List Record) (st : EngineState) (h : ∀ r ∈ rs, toolResultNamed r)
    (hinv : ∀ sid, sessToolCount st sid = sessToolSum st sid) :
    ∀ sid, sessToolCount (rs.foldl processRecord st) sid =
      sessToolSum (rs.foldl processRecord st) sid := by
  induction rs generalizing st with
  | nil => exact hinv
  | cons r rest ih =>
    exact ih _ (fun r' hr' => h r' (List.mem_cons_of_mem _ hr'))
      (c5_processRecord st r (h r (List.mem_cons_self _ _)) hinv)

/-- C5 counterexample: a tool_result log record with no attributes (so no
tool_name) increments the session's tool_call_count to 1 but creates no
SessionTool row, so the sum of call_count over the session's tools stays
0 and the claimed equality fails. -/
theorem c5_unnamed_tool_counterexample :
    sessToolCount (foldRecords [Record.log bareToolResultLog]) "s" = 1 ∧
    sessToolSum (foldRecords [Record.log bareToolResultLog]) "s" = 0 ∧
    sessToolCount (foldRecords [Record.log bareToolResultLog]) "s" ≠
      sessToolSum (foldRecords [Record.log bareToolResultLog]) "s" := by decide

/-- C5 (amended): for any session, after folding any record stream in
which every tool_result log record carries a non-empty tool_name, the
session's tool_call_count equals the sum of call_count over the
session's SessionTool rows; a tool_result without a tool_name increments
only the session counter and breaks the equality. -/
theorem c5_toolcount_eq_sum (rs : List Record) (h : ∀ r ∈ rs, toolResultNamed r)
    (sid : String) :
    sessToolCount (foldRecords rs) sid = sessToolSum (foldRecords rs) sid :=
  c5_fold rs initEngineState h
    (fun sid' => by simp [sessToolCount, sessToolSum, initEngineState, alGet, toolSum]) sid

/-- C5 witness: one named tool_result— both the session counter and the
per-tool sum are 1 and agree. -/
theorem c5_toolcount_eq_sum_witness :
    (∀ r ∈ [Record.log (toolResultLog "s1" "Read" true ⟨452, 10⟩ 5)], toolResultNamed r) ∧
    sessToolCount (foldRecords [Record.log (toolResultLog "s1" "Read" true ⟨452, 10⟩ 5)]) "s1"
      = 1 ∧
    sessToolCount (foldRecords [Record.log (toolResultLog "s1" "Read" true ⟨452, 10⟩ 5)]) "s1"
      = sessToolSum (foldRecords [Record.log (toolResultLog "s1" "Read" true ⟨452, 10⟩ 5)]) "s1" :=
  ⟨by decide, by decide,
   c5_toolcount_eq_sum [Record.log (toolResultLog "s1" "Read" true ⟨452, 10⟩ 5)] (by decide) "s1"⟩

theorem Q.le_self (a : Q) : Q.le a a := le_refl _

theorem Q.le_add_right {a c : Q} (ha : Q.posden a) (hc : Q.posden c) (hcn : 0 ≤ c.num) :
    Q.le a (Q.add a c) := by
  unfold Q.posden at *
  show a.num * (a.den * c.den) ≤ (a.num * c.den + c.num * a.den) * a.den
  nlinarith [mul_nonneg hcn (mul_nonneg ha.le ha.le)]

theorem Q.add_nonneg_num {a c : Q} (ha : Q.posden a) (han : 0 ≤ a.num) (hc : Q.posden c)
    (hcn : 0 ≤ c.num) : 0 ≤ (Q.add a c).num := by
  unfold Q.posden at *
  show 0 ≤ a.num * c.den + c.num * a.den
  exact add_nonneg (mul_nonneg han hc.le) (mul_nonneg hcn ha.le)

theorem totalsLe_refl (s : Session) : totalsLe s s :=
  ⟨Q.le_self _, le_refl _, le_refl _, le_refl _, le_refl _⟩

theorem optTotalsLe_refl (o : Option Session) : optTotalsLe o o := by
  cases o with
  | none => trivial
  | some s => exact totalsLe_refl s

theorem totalsNonneg_fresh (sid org user : String) (ts : Int) :
    totalsNonneg (freshSession sid org user ts) := by
  refine ⟨Int.zero_lt_one, le_refl _, le_refl _, le_refl _, le_refl _, le_refl _⟩

theorem totals_eq_transfer {s s' : Session}
    (h1 : s'.totalCostUSD = s.totalCostUSD) (h2 : s'.totalInputTokens = s.totalInputTokens)
    (h3 : s'.totalOutputTokens = s.totalOutputTokens)
    (h4 : s'.totalCacheReadTokens = s.totalCacheReadTokens)
    (h5 : s'.totalCacheCreationTokens = s.totalCacheCreationTokens) :
    (totalsNonneg s → totalsNonneg s') ∧ totalsLe s s' := by
  unfold totalsNonneg totalsLe
  rw [h1, h2, h3, h4, h5]
  exact ⟨id, Q.le_self _, le_refl _, le_refl _, le_refl _, le_refl _⟩

theorem totalsLe_trans {a b c : Session} (hA : totalsNonneg a) (hB : totalsNonneg b)
    (hC : totalsNonneg c) (h1 : totalsLe a b) (h2 : totalsLe b c) : totalsLe a c := by
  obtain ⟨hA1, -, -, -, -, -⟩ := hA
  obtain ⟨hB1, -, -, -, -, -⟩ := hB
  obtain ⟨hC1, -, -, -, -, -⟩ := hC
  obtain ⟨q1, i1, i2, i3, i4⟩ := h1
  obtain ⟨q2, j1, j2, j3, j4⟩ := h2
  refine ⟨?_, le_trans i1 j1, le_trans i2 j2, le_trans i3 j3, le_trans i4 j4⟩
  rw [Q.le_iff_val hA1 hC1]
  exact le_trans ((Q.le_iff_val hA1 hB1).mp q1) ((Q.le_iff_val hB1 hC1).mp q2)

theorem optTotalsLe_trans {o1 o2 o3 : Option Session}
    (n1 : optTotalsNonneg o1) (n2 : optTotalsNonneg o2) (n3 : optTotalsNonneg o3)
    (h1 : optTotalsLe o1 o2) (h2 : optTotalsLe o2 o3) : optTotalsLe o1 o3 := by
  cases o1 with
  | none => trivial
  | some a =>
    cases o2 with
    | none => exact absurd h1 (by simp [optTotalsLe])
    | some b =>
      cases o3 with
      | none => exact absurd h2 (by simp [optTotalsLe])
      | some c => exact totalsLe_trans n1 n2 n3 h1 h2

theorem optTotalsNonneg_of (c : List (String × Session))
    (hP : ∀ sid s, alGet c sid = some s → totalsNonneg s) (sid : String) :
    optTotalsNonneg (alGet c sid) := by
  cases h : alGet c sid with
  | none => trivial
  | some s => exact hP _ _ h

theorem metricTokenValue_nonneg (v : MetricValue) (h : metricValueNonneg v) :
    0 ≤ metricTokenValue v := by
  cases v with
  | intV i => exact h
  | doubleV q => exact Q.toIntTrunc_nonneg h.1 h.2
  | noneV => exact le_refl _

theorem metricSessionUpdate_totals (r : MetricRecord) (s : Session)
    (hv : metricValueNonneg r.metricValue) (hs : totalsNonneg s) :
    totalsNonneg (metricSessionUpdate r s) ∧ totalsLe s (metricSessionUpdate r s) := by
  have htv : 0 ≤ metricTokenValue r.metricValue := metricTokenValue_nonneg _ hv
  obtain ⟨hden, hnum, h1, h2, h3, h4⟩ := hs
  simp only [metricSessionUpdate]
  split_ifs <;>
    first
      | exact ⟨⟨hden, hnum, h1, h2, h3, h4⟩,
               Q.le_self _, le_refl _, le_refl _, le_refl _, le_refl _⟩
      | exact ⟨⟨hden, hnum, add_nonneg h1 htv, h2, h3, h4⟩,
               Q.le_self _, le_add_of_nonneg_right htv, le_refl _, le_refl _, le_refl _⟩
      | exact ⟨⟨hden, hnum, h1, add_nonneg h2 htv, h3, h4⟩,
               Q.le_self _, le_refl _, le_add_of_nonneg_right htv, le_refl _, le_refl _⟩
      | exact ⟨⟨hden, hnum, h1, h2, add_nonneg h3 htv, h4⟩,
               Q.le_self _, le_refl _, le_refl _, le_add_of_nonneg_right htv, le_refl _⟩
      | exact ⟨⟨hden, hnum, h1, h2, h3, add_nonneg h4 htv⟩,
               Q.le_self _, le_refl _, le_refl _, le_refl _, le_add_of_nonneg_right htv⟩
      | (cases hval : r.metricValue with
         | doubleV c =>
           have hv' : 0 < c.den ∧ 0 ≤ c.num := by rw [hval] at hv; exact hv
           exact ⟨⟨Q.posden_add hden hv'.1, Q.add_nonneg_num hden hnum hv'.1 hv'.2,
                   h1, h2, h3, h4⟩,
                  Q.le_add_right hden hv'.1 hv'.2, le_refl _, le_refl _, le_refl _, le_refl _⟩
         | intV i =>
           have hv' : (0 : Int) ≤ i := by rw [hval] at hv; exact hv
           exact ⟨⟨Q.posden_add hden (Q.posden_ofInt i),
                   Q.add_nonneg_num hden hnum (Q.posden_ofInt i) hv', h1, h2, h3, h4⟩,
                  Q.le_add_right hden (Q.posden_ofInt i) hv',
                  le_refl _, le_refl _, le_refl _, le_refl _⟩
         | noneV =>
           exact ⟨⟨hden, hnum, h1, h2, h3, h4⟩,
                  Q.le_self _, le_refl _, le_refl _, le_refl _, le_refl _⟩)

theorem logSessionFn_totals (r : LogRecord) (s : Session) :
    (logSessionFn r s).totalCostUSD = s.totalCostUSD ∧
    (logSessionFn r s).totalInputTokens = s.totalInputTokens ∧
    (logSessionFn r s).totalOutputTokens = s.totalOutputTokens ∧
    (logSessionFn r s).totalCacheReadTokens = s.totalCacheReadTokens ∧
    (logSessionFn r s).totalCacheCreationTokens = s.totalCacheCreationTokens := by
  simp only [logSessionFn]
  repeat' split
  all_goals exact ⟨rfl, rfl, rfl, rfl, rfl⟩

theorem processRecord_totals (st : EngineState) (r : Record) (hr : recordNonneg r)
    (hP : ∀ sid s, alGet st.sessionsCache sid = some s → totalsNonneg s) :
    (∀ sid s, alGet (processRecord st r).sessionsCache sid = some s → totalsNonneg s) ∧
    (∀ sid, optTotalsLe (alGet st.sessionsCache sid)
      (alGet (processRecord st r).sessionsCache sid)) := by
  cases r with
  | trace r =>
    have he : (processRecord st (Record.trace r)).sessionsCache = st.sessionsCache :=
      ProcessTrace_sessionsCache st r
    rw [he]
    exact ⟨hP, fun sid => optTotalsLe_refl _⟩
  | metric r =>
    show (∀ sid s, alGet (ProcessMetric st r).sessionsCache sid = some s → totalsNonneg s) ∧
      (∀ sid, optTotalsLe (alGet st.sessionsCache sid)
        (alGet (ProcessMetric st r).sessionsCache sid))
    by_cases hs0 : r.sessionID = ""
    · simp only [ProcessMetric, if_pos hs0]
      exact ⟨hP, fun sid => optTotalsLe_refl _⟩
    · simp only [ProcessMetric, if_neg hs0]
      constructor
      · intro sid s hget
        by_cases hk : r.sessionID = sid
        · subst hk
          rw [alGet_getOrCreateSession_self] at hget
          injection hget with hget
          subst hget
          cases hcs : alGet st.sessionsCache r.sessionID with
          | some s0 =>
            exact (metricSessionUpdate_totals r
              { applyEnv (metricEnv r) s0 with endTime := r.timestamp } hr
              (hP r.sessionID s0 hcs)).1
          | none =>
            exact (metricSessionUpdate_totals r
              { applyEnv (metricEnv r)
                  (freshSession r.sessionID r.organizationID r.userID r.timestamp) with
                endTime := r.timestamp } hr
              (totalsNonneg_fresh r.sessionID r.organizationID r.userID r.timestamp)).1
        · rw [alGet_getOrCreateSession_ne _ _ _ _ _ _ _ _ hk] at hget
          exact hP _ _ hget
      · intro sid
        by_cases hk : r.sessionID = sid
        · subst hk
          rw [alGet_getOrCreateSession_self]
          cases hcs : alGet st.sessionsCache r.sessionID with
          | none => trivial
          | some s0 =>
            exact (metricSessionUpdate_totals r
              { applyEnv (metricEnv r) s0 with endTime := r.timestamp } hr
              (hP r.sessionID s0 hcs)).2
        · rw [alGet_getOrCreateSession_ne _ _ _ _ _ _ _ _ hk]
          exact optTotalsLe_refl _
  | log r =>
    show (∀ sid s, alGet (ProcessLog st r).sessionsCache sid = some s → totalsNonneg s) ∧
      (∀ sid, optTotalsLe (alGet st.sessionsCache sid)
        (alGet (ProcessLog st r).sessionsCache sid))
    by_cases hs0 : r.sessionID = ""
    · simp only [ProcessLog, if_pos hs0]
      exact ⟨hP, fun sid => optTotalsLe_refl _⟩
    · simp only [ProcessLog, if_neg hs0]
      constructor
      · intro sid s hget
        by_cases hk : r.sessionID = sid
        · subst hk
          rw [alGet_getOrCreateSession_self] at hget
          injection hget with hget
          subst hget
          cases hcs : alGet st.sessionsCache r.sessionID with
          | some s0 =>
            have he := logSessionFn_totals r
              { applyEnv (logEnv r) s0 with endTime := r.timestamp }
            exact (totals_eq_transfer he.1 he.2.1 he.2.2.1 he.2.2.2.1 he.2.2.2.2).1
              (hP r.sessionID s0 hcs)
          | none =>
            have he := logSessionFn_totals r
              { applyEnv (logEnv r)
                  (freshSession r.sessionID r.organizationID r.userID r.timestamp) with
                endTime := r.timestamp }
            exact (totals_eq_transfer he.1 he.2.1 he.2.2.1 he.2.2.2.1 he.2.2.2.2).1
              (totalsNonneg_fresh r.sessionID r.organizationID r.userID r.timestamp)
        · rw [alGet_getOrCreateSession_ne _ _ _ _ _ _ _ _ hk] at hget
          exact hP _ _ hget
      · intro sid
        by_cases hk : r.sessionID = sid
        · subst hk
          rw [alGet_getOrCreateSession_self]
          cases hcs : alGet st.sessionsCache r.sessionID with
          | none => trivial
          | some s0 =>
            have he := logSessionFn_totals r
              { applyEnv (logEnv r) s0 with endTime := r.timestamp }
            exact (totals_eq_transfer he.1 he.2.1 he.2.2.1 he.2.2.2.1 he.2.2.2.2).2
        · rw [alGet_getOrCreateSession_ne _ _ _ _ _ _ _ _ hk]
          exact optTotalsLe_refl _

theorem fold_totals (rs : List Record) (st : EngineState)
    (h : ∀ r ∈ rs, recordNonneg r)
    (hP : ∀ sid s, alGet st.sessionsCache sid = some s → totalsNonneg s) :
    (∀ sid s, alGet (rs.foldl processRecord st).sessionsCache sid = some s → totalsNonneg s) ∧
    (∀ sid, optTotalsLe (alGet st.sessionsCache sid)
      (alGet (rs.foldl processRecord st).sessionsCache sid)) := by
  induction rs generalizing st with
  | nil => exact ⟨hP, fun sid => optTotalsLe_refl _⟩
  | cons r rest ih =>
    have hstep := processRecord_totals st r (h r (List.mem_cons_self _ _)) hP
    have hrest := ih (processRecord st r) (fun r' hr' => h r' (List.mem_cons_of_mem _ hr'))
      hstep.1
    refine ⟨hrest.1, fun sid => ?_⟩
    exact optTotalsLe_trans (optTotalsNonneg_of _ hP sid)
      (optTotalsNonneg_of _ hstep.1 sid) (optTotalsNonneg_of _ hrest.1 sid)
      (hstep.2 sid) (hrest.2 sid)

/-- C9 counterexample: a cost metric with value −1 drives the session's
total_cost_usd below zero, and following a cost of 1.25 with a cost of
−1 strictly decreases it — metric values are added unchecked, so the
claimed "no metric record ever decreases a total or drives it below
zero" fails on the code. -/
theorem c9_negative_value_counterexample :
    ¬ optTotalsNonneg
        (alGet (foldRecords [Record.metric (costMetric "s" ⟨-1, 1⟩ 1)]).sessionsCache "s") ∧
    ¬ optTotalsLe
        (alGet (foldRecords [Record.metric (costMetric "s" ⟨125, 100⟩ 1)]).sessionsCache "s")
        (alGet (foldRecords [Record.metric (costMetric "s" ⟨125, 100⟩ 1),
          Record.metric (costMetric "s" ⟨-1, 1⟩ 2)]).sessionsCache "s") := by decide

/-- C9 (amended): provided every folded metric record carries a
non-negative value, each session's monetary and token totals are
non-negative after any prefix of the stream and monotone non-decreasing
along the stream; a record with a negative value violates both. -/
theorem c9_totals_monotone (rs₁ rs₂ : List Record)
    (h : ∀ r ∈ rs₁ ++ rs₂, recordNonneg r) (sid : String) :
    optTotalsNonneg (alGet (foldRecords rs₁).sessionsCache sid) ∧
    optTotalsLe (alGet (foldRecords rs₁).sessionsCache sid)
      (alGet (foldRecords (rs₁ ++ rs₂)).sessionsCache sid) := by
  have hinit : ∀ sid' s, alGet initEngineState.sessionsCache sid' = some s → totalsNonneg s := by
    intro sid' s hh
    simp [initEngineState, alGet] at hh
  have hf1 := fold_totals rs₁ initEngineState
    (fun r hr' => h r (List.mem_append_left _ hr')) hinit
  have happ : foldRecords (rs₁ ++ rs₂) = rs₂.foldl processRecord (foldRecords rs₁) := by
    simp [foldRecords, List.foldl_append]
  have hf2 := fold_totals rs₂ (foldRecords rs₁)
    (fun r hr' => h r (List.mem_append_right _ hr')) hf1.1
  refine ⟨optTotalsNonneg_of _ hf1.1 sid, ?_⟩
  rw [happ]
  exact hf2.2 sid

/-- C9 witness: two non-negative cost records — totals are non-negative
after the first and do not decrease when the second is folded. -/
theorem c9_totals_monotone_witness :
    (∀ r ∈ [Record.metric (costMetric "s" ⟨125, 100⟩ 1)] ++
        [Record.metric (costMetric "s" ⟨75, 100⟩ 2)], recordNonneg r) ∧
    optTotalsNonneg
      (alGet (foldRecords [Record.metric (costMetric "s" ⟨125, 100⟩ 1)]).sessionsCache "s") ∧
    optTotalsLe
      (alGet (foldRecords [Record.metric (costMetric "s" ⟨125, 100⟩ 1)]).sessionsCache "s")
      (alGet (foldRecords ([Record.metric (costMetric "s" ⟨125, 100⟩ 1)] ++
        [Record.metric (costMetric "s" ⟨75, 100⟩ 2)])).sessionsCache "s") :=
  ⟨by decide,
   (c9_totals_monotone [Record.metric (costMetric "s" ⟨125, 100⟩ 1)]
     [Record.metric (costMetric "s" ⟨75, 100⟩ 2)] (by decide) "s").1,
   (c9_totals_monotone [Record.metric (costMetric "s" ⟨125, 100⟩ 1)]
     [Record.metric (costMetric "s" ⟨75, 100⟩ 2)] (by decide) "s").2⟩

theorem Q.val_pos_iff {a : Q} (ha : Q.posden a) : 0 < a.val ↔ 0 < a.num := by
  rw [← Q.val_zero, ← Q.lt_iff_val Q.posden_zero ha]
  unfold Q.lt Q.zero
  simp

theorem updateToolStatsFn_fields (succ : Bool) (d : Q) (ts : SessionToolStats)
    (hdur : Q.lt Q.zero d) :
    (updateToolStatsFn succ d ts).executionCount = ts.executionCount + 1 ∧
    (updateToolStatsFn succ d ts).totalDurationMS = Q.add ts.totalDurationMS d ∧
    (updateToolStatsFn succ d ts).avgDurationMS =
      Q.div (Q.add ts.totalDurationMS d) (Q.ofInt ((ts.executionCount + 1 : Nat) : Int)) ∧
    (updateToolStatsFn succ d ts).minDurationMS =
      (if ts.minDurationMS.num = 0 ∨ Q.lt d ts.minDurationMS then d else ts.minDurationMS) ∧
    (updateToolStatsFn succ d ts).maxDurationMS =
      (if Q.lt ts.maxDurationMS d then d else ts.maxDurationMS) := by
  cases succ <;>
    simp only [updateToolStatsFn, Bool.false_eq_true, if_true, if_false, if_pos hdur] <;>
    exact ⟨trivial, trivial, trivial, trivial, trivial⟩

theorem div_bounds {mn mx t d n : ℚ} (hn : 1 ≤ n)
    (hmt : mn * n ≤ t) (hmd : mn ≤ d) (hxt : t ≤ mx * n) (hxd : d ≤ mx) :
    mn ≤ (t + d) / (n + 1) ∧ (t + d) / (n + 1) ≤ mx := by
  have hpos : (0:ℚ) < n + 1 := by linarith
  constructor
  · rw [le_div_iff hpos]
    nlinarith
  · rw [div_le_iff hpos]
    nlinarith

theorem c8_base (sid tname : String) (succ : Bool) (d : Q) (hd : 0 < d.den)
    (hdp : Q.lt Q.zero d) : c8Inv (updateToolStatsFn succ d (freshToolStats sid tname)) := by
  obtain ⟨he, ht, ha, hm, hx⟩ := updateToolStatsFn_fields succ d (freshToolStats sid tname) hdp
  have hfe : (freshToolStats sid tname).executionCount = 0 := rfl
  have hdval : 0 < d.val := by
    have := (Q.lt_iff_val Q.posden_zero hd).mp hdp
    simpa [Q.val_zero] using this
  have htval : (Q.add (freshToolStats sid tname).totalDurationMS d).val = d.val := by
    rw [Q.val_add one_ne_zero hd.ne']
    show Q.zero.val + d.val = d.val
    rw [Q.val_zero]
    ring
  have htden : (0:Int) < (Q.add (freshToolStats sid tname).totalDurationMS d).den := by
    show (0:Int) < 1 * d.den
    omega
  have hmin : (updateToolStatsFn succ d (freshToolStats sid tname)).minDurationMS = d := by
    rw [hm, if_pos]
    left
    rfl
  have hmax : (updateToolStatsFn succ d (freshToolStats sid tname)).maxDurationMS = d := by
    rw [hx, if_pos]
    exact hdp
  have haval : (updateToolStatsFn succ d (freshToolStats sid tname)).avgDurationMS.val = d.val := by
    rw [ha, hfe, Q.val_div_ofInt htden.ne' (by omega), htval]
    push_cast
    norm_num
  unfold c8Inv
  rw [he, ht, ha, hmin, hmax]
  refine ⟨by omega, htden, ?_, hd, hd, ?_, hdval, ?_, ?_⟩
  · exact Q.posden_div_ofInt htden (by omega)
  · rw [hfe, Q.val_div_ofInt htden.ne' (by omega), htval]
    push_cast
    norm_num
  · rw [← ha, haval]
  · rw [← ha, haval]

theorem c8_step (ts : SessionToolStats) (succ : Bool) (d : Q) (hd : 0 < d.den)
    (hdp : Q.lt Q.zero d) (h : c8Inv ts) : c8Inv (updateToolStatsFn succ d ts) := by
  obtain ⟨hc, htd, had, hmd, hxd, havg, hminpos, hminle, hmaxle⟩ := h
  obtain ⟨he, ht, ha, hm, hx⟩ := updateToolStatsFn_fields succ d ts hdp
  have hdval : 0 < d.val := by
    have := (Q.lt_iff_val Q.posden_zero hd).mp hdp
    simpa [Q.val_zero] using this
  have hminnum : ¬ ts.minDurationMS.num = 0 := by
    have := (Q.val_pos_iff hmd).mp hminpos
    omega
  have hn1 : (1:ℚ) ≤ (ts.executionCount : ℚ) := by exact_mod_cast hc
  have htotden : (0:Int) < (Q.add ts.totalDurationMS d).den := mul_pos htd hd
  have htval : (Q.add ts.totalDurationMS d).val = ts.totalDurationMS.val + d.val :=
    Q.val_add htd.ne' hd.ne'
  have hcnt : (0:Int) < ((ts.executionCount + 1 : Nat) : Int) := by positivity
  have httl : ts.avgDurationMS.val * (ts.executionCount : ℚ) = ts.totalDurationMS.val := by
    rw [havg]
    field_simp
  have haval : (updateToolStatsFn succ d ts).avgDurationMS.val =
      (ts.totalDurationMS.val + d.val) / ((ts.executionCount : ℚ) + 1) := by
    rw [ha, Q.val_div_ofInt htotden.ne' hcnt, htval]
    push_cast
    ring
  have hbound : ∀ mnv mxv : ℚ,
      mnv ≤ ts.avgDurationMS.val → mnv ≤ d.val →
      ts.avgDurationMS.val ≤ mxv → d.val ≤ mxv →
      mnv ≤ (updateToolStatsFn succ d ts).avgDurationMS.val ∧
      (updateToolStatsFn succ d ts).avgDurationMS.val ≤ mxv := by
    intro mnv mxv h1 h2 h3 h4
    rw [haval]
    refine div_bounds hn1 ?_ h2 ?_ h4
    · rw [← httl]
      exact mul_le_mul_of_nonneg_right h1 (by linarith)
    · rw [← httl]
      exact mul_le_mul_of_nonneg_right h3 (by linarith)
  have hub : ts.avgDurationMS.val ≤ max ts.maxDurationMS.val d.val :=
    le_trans hmaxle (le_max_left _ _)
  have hub2 : d.val ≤ max ts.maxDurationMS.val d.val := le_max_right _ _
  have hlb : min ts.minDurationMS.val d.val ≤ ts.avgDurationMS.val :=
    le_trans (min_le_left _ _) hminle
  have hlb2 : min ts.minDurationMS.val d.val ≤ d.val := min_le_right _ _
  unfold c8Inv
  rw [he, ht, ha, hm, hx]
  refine ⟨by omega, htotden, Q.posden_div_ofInt htotden hcnt, ?_, ?_, ?_, ?_, ?_, ?_⟩
  · split_ifs <;> [exact hd; exact hmd]
  · split_ifs <;> [exact hd; exact hxd]
  · rw [Q.val_div_ofInt htotden.ne' hcnt, htval]
    push_cast
    ring
  · split_ifs <;> [exact hdval; exact hminpos]
  · rw [← ha]
    split_ifs with hcond
    · exact (hbound d.val (max ts.maxDurationMS.val d.val) (by
        rcases hcond with hzero | hlt
        · exact absurd hzero hminnum
        · exact le_trans ((Q.lt_iff_val hd hmd).mp hlt).le hminle) (le_refl _) hub hub2).1
    · push_neg at hcond
      have hle : ts.minDurationMS.val ≤ d.val := by
        have := hcond.2
        rw [Q.lt_iff_val hd hmd] at this
        linarith
      exact (hbound ts.minDurationMS.val (max ts.maxDurationMS.val d.val)
        hminle hle hub hub2).1
  · rw [← ha]
    split_ifs with hcond
    · have hle : ts.maxDurationMS.val ≤ d.val := by
        rw [Q.lt_iff_val hxd hd] at hcond
        linarith
      exact (hbound (min ts.minDurationMS.val d.val) d.val
        hlb hlb2 (le_trans hmaxle hle) (le_refl _)).2
    · have hle : d.val ≤ ts.maxDurationMS.val := by
        rw [Q.lt_iff_val hxd hd] at hcond
        linarith
      exact (hbound (min ts.minDurationMS.val d.val) ts.maxDurationMS.val
        hlb hlb2 hmaxle hle).2

theorem c8_fold (l : List (Bool × Q)) (ts : SessionToolStats)
    (hl : ∀ p ∈ l, 0 < p.2.den ∧ Q.lt Q.zero p.2) (h : c8Inv ts) :
    c8Inv (l.foldl (fun a p => updateToolStatsFn p.1 p.2 a) ts) := by
  induction l generalizing ts with
  | nil => exact h
  | cons p rest ih =>
    exact ih _ (fun q hq => hl q (List.mem_cons_of_mem _ hq))
      (c8_step ts p.1 p.2 (hl p (List.mem_cons_self _ _)).1 (hl p (List.mem_cons_self _ _)).2 h)

/-- C8 counterexample: folding durations 10, 0, 10 (the middle record
carrying no positive duration) gives execution_count = 3 but total 20,
so the recomputed average 20/3 drops below the stored minimum 10 — the
invariant min ≤ avg fails when zero-duration calls inflate the count. -/
theorem c8_zero_duration_counterexample :
    0 < (applyToolResults "s" "T" c8CexList).executionCount ∧
    (applyToolResults "s" "T" c8CexList).minDurationMS = ⟨10, 1⟩ ∧
    (applyToolResults "s" "T" c8CexList).avgDurationMS = ⟨20, 3⟩ ∧
    ¬ Q.le (applyToolResults "s" "T" c8CexList).minDurationMS
        (applyToolResults "s" "T" c8CexList).avgDurationMS := by decide

/-- C8 (amended): for a tool-stats row folded from a non-empty sequence
of tool results in which every record carries a positive duration,
min_duration_ms ≤ avg_duration_ms ≤ max_duration_ms holds (and min is
seeded by the first positive duration through the min = 0 OR d < min
rule); a zero-duration record, counted in execution_count but not in the
total, can push the average below the minimum. -/
theorem c8_min_avg_max (sid tname : String) (l : List (Bool × Q)) (hne : l ≠ [])
    (hpos : ∀ p ∈ l, 0 < p.2.den ∧ Q.lt Q.zero p.2) :
    0 < (applyToolResults sid tname l).executionCount ∧
    Q.le (applyToolResults sid tname l).minDurationMS
      (applyToolResults sid tname l).avgDurationMS ∧
    Q.le (applyToolResults sid tname l).avgDurationMS
      (applyToolResults sid tname l).maxDurationMS := by
  match l, hne with
  | p :: rest, _ =>
    have hinv : c8Inv (applyToolResults sid tname (p :: rest)) := by
      unfold applyToolResults
      simp only [List.foldl_cons]
      exact c8_fold rest _ (fun q hq => hpos q (List.mem_cons_of_mem _ hq))
        (c8_base sid tname p.1 p.2 (hpos p (List.mem_cons_self _ _)).1
          (hpos p (List.mem_cons_self _ _)).2)
    obtain ⟨hc, _, had, hmd, hxd, _, _, hminle, hmaxle⟩ := hinv
    exact ⟨hc, (Q.le_iff_val hmd had).mpr hminle, (Q.le_iff_val had hxd).mpr hmaxle⟩

/-- C8 witness: the spec's S3 durations 45.2 (success) and 12.3
(failure) — both positive — satisfy min ≤ avg ≤ max. -/
theorem c8_min_avg_max_witness :
    c8WitnessList ≠ [] ∧
    (∀ p ∈ c8WitnessList, 0 < p.2.den ∧ Q.lt Q.zero p.2) ∧
    (0 < (applyToolResults "s1" "Read" c8WitnessList).executionCount ∧
     Q.le (applyToolResults "s1" "Read" c8WitnessList).minDurationMS
       (applyToolResults "s1" "Read" c8WitnessList).avgDurationMS ∧
     Q.le (applyToolResults "s1" "Read" c8WitnessList).avgDurationMS
       (applyToolResults "s1" "Read" c8WitnessList).maxDurationMS) :=
  ⟨by decide, by decide, c8_min_avg_max "s1" "Read" c8WitnessList (by decide) (by decide)⟩
